import Mathlib

/-!
# Mole status collectors: battery, thermal and sensor telemetry

A shallow embedding of `cmd/status/metrics_battery.go`.

* Go strings are modelled as lists of Unicode code points (`Str`), that is, Go
  strings holding valid UTF-8.
* `float64` is modelled by `F64`: NaN, the two infinities, and finite values
  `(-1)^neg * mant * 2^exp`; conversions and arithmetic round to nearest, ties
  to even, as IEEE 754 binary64 does.
* Everything the collectors obtain from their surroundings (platform name,
  command lookup, process runner, glob, file reads) comes from an explicit
  `Env`; every interaction is appended to a trace of `Event`s, and an
  interaction may raise a runtime fault (a Go panic).
-/

namespace Mole

/-- Go strings, as sequences of Unicode code points. -/
abbrev Str := List Char

/-! ## The `strings` package -/

/-- Go `unicode.IsSpace`. -/
def isSpace (c : Char) : Bool :=
  let n := c.toNat
  n == 0x20 || (0x09 ≤ n && n ≤ 0x0D) || n == 0x85 || n == 0xA0 || n == 0x1680 ||
    (0x2000 ≤ n && n ≤ 0x200A) || n == 0x2028 || n == 0x2029 || n == 0x202F ||
    n == 0x205F || n == 0x3000

/-- Go `strings.Contains`. -/
def stringsContains : Str → Str → Bool
  | [], sub => sub.isEmpty
  | c :: cs, sub => sub.isPrefixOf (c :: cs) || stringsContains cs sub

/-- Loop of `strings.Fields`: `cur` is the field being read. -/
def fieldsGo : Str → Str → List Str
  | [], cur => if cur.isEmpty then [] else [cur]
  | c :: cs, cur =>
    if isSpace c then
      (if cur.isEmpty then fieldsGo cs [] else cur :: fieldsGo cs [])
    else fieldsGo cs (cur ++ [c])

/-- Go `strings.Fields`: the maximal runs of non-space code points. -/
def stringsFields (s : Str) : List Str := fieldsGo s []

/-- Go `strings.Split` with a one-character separator. -/
def stringsSplit (sep : Char) : Str → List Str
  | [] => [[]]
  | c :: cs =>
    if c = sep then [] :: stringsSplit sep cs
    else
      match stringsSplit sep cs with
      | [] => [[c]]
      | h :: t => (c :: h) :: t

/-- Go `strings.TrimSuffix`. -/
def stringsTrimSuffix (s suffix : Str) : Str :=
  if suffix.isSuffixOf s then s.take (s.length - suffix.length) else s

/-- Go `strings.TrimPrefix`, with the leading text to remove as second argument. -/
def stringsTrimLeading (s lead : Str) : Str :=
  if lead.isPrefixOf s then s.drop lead.length else s

/-- Go `strings.TrimSpace`. -/
def stringsTrimSpace (s : Str) : Str :=
  ((s.dropWhile isSpace).reverse.dropWhile isSpace).reverse

/-- Go `strings.ReplaceAll` with one-character old and new texts. -/
def stringsReplaceAll (s : Str) (old new : Char) : Str :=
  s.map (fun c => if c = old then new else c)

/-- Go `unicode.ToLower` on the code points whose lower case is an ASCII letter
(`A`..`Z`, U+0130 and the Kelvin sign U+212A). Other code points are left as they
are: their lower case is never an ASCII character, and the collectors only look
for ASCII words in lower-cased text. -/
def toLowerRune (c : Char) : Char :=
  let n := c.toNat
  if 0x41 ≤ n ∧ n ≤ 0x5A then Char.ofNat (n + 32)
  else if n = 0x130 then 'i'
  else if n = 0x212A then 'k'
  else c

/-- Go `strings.ToLower`. -/
def stringsToLower (s : Str) : Str := s.map toLowerRune

/-! ## The `path/filepath` package (Unix) -/

/-- Stack step of `filepath.Clean`: drop `.` and empty elements, resolve `..`. -/
def cleanStep (rooted : Bool) (stack : List Str) (elem : Str) : List Str :=
  if elem = [] ∨ elem = ['.'] then stack
  else if elem = ['.', '.'] then
    match stack.getLast? with
    | none => if rooted then stack else stack ++ [elem]
    | some top => if top = ['.', '.'] then stack ++ [elem] else stack.dropLast
  else stack ++ [elem]

/-- Go `filepath.Clean`. -/
def filepathClean (path : Str) : Str :=
  let rooted := path.head? = some '/'
  let stack := (stringsSplit '/' path).foldl (cleanStep rooted) []
  let body := List.intercalate ['/'] stack
  if rooted then '/' :: body else if body = [] then ['.'] else body

/-- Index just after the last `/` of a path (0 when there is none). -/
def afterLastSlash (path : Str) : Nat :=
  path.length - (path.reverse.takeWhile (fun c => c != '/')).length

/-- Go `filepath.Dir`. -/
def filepathDir (path : Str) : Str := filepathClean (path.take (afterLastSlash path))

/-- Go `filepath.Join` of two elements. -/
def filepathJoin (a b : Str) : Str :=
  if a ≠ [] then filepathClean (a ++ '/' :: b)
  else if b ≠ [] then filepathClean b
  else []

/-! ## `float64` -/

/-- IEEE 754 binary64 values: NaN, the infinities, and the finite values
`(-1)^neg * mant * 2^exp`. Values produced by this development are in normal
form (`mant < 2^53`, and `2^52 ≤ mant` or `exp = -1074`, zero being `mant = 0`,
`exp = 0`), so that equal numbers are equal terms. -/
inductive F64 where
  | nan
  | inf (neg : Bool)
  | fin (neg : Bool) (mant : Nat) (exp : Int)
deriving DecidableEq, Repr

namespace F64

/-- Number of binary digits of `n`, by halving at most `fuel` times. -/
def bitLenAux : Nat → Nat → Nat
  | 0, _ => 0
  | fuel + 1, n => if n = 0 then 0 else bitLenAux fuel (n / 2) + 1

/-- Number of binary digits of `n` (0 for 0). -/
def bitLen (n : Nat) : Nat := bitLenAux n n

/-- The integer nearest to `n / d`, ties to the even one. -/
def roundHalfEven (n d : Nat) : Nat :=
  let q := n / d
  let r := n % d
  if 2 * r < d then q
  else if d < 2 * r then q + 1
  else if q % 2 = 0 then q else q + 1

/-- The integer nearest to `(n / d) / 2^e`, ties to even. -/
def scaled (n d : Nat) (e : Int) : Nat :=
  if 0 ≤ e then roundHalfEven n (d * 2 ^ e.toNat) else roundHalfEven (n * 2 ^ (-e).toNat) d

/-- Whether `2^k ≤ n / d`. -/
def geTwoPow (n d : Nat) (k : Int) : Bool :=
  if 0 ≤ k then decide (d * 2 ^ k.toNat ≤ n) else decide (d ≤ n * 2 ^ (-k).toNat)

/-- The binary64 value nearest to `(-1)^neg * n / d` (for `d > 0`), ties to even;
an infinity when the rounded value exceeds the largest finite binary64. -/
def ofRatio (neg : Bool) (n d : Nat) : F64 :=
  if n = 0 then fin neg 0 0
  else
    let k0 : Int := (bitLen n : Int) - (bitLen d : Int)
    let k : Int := if geTwoPow n d k0 then k0 else k0 - 1
    let e : Int := max (k - 52) (-1074)
    let m := scaled n d e
    if m = 0 then fin neg 0 0
    else if m = 2 ^ 53 then (if 971 < e + 1 then inf neg else fin neg (2 ^ 52) (e + 1))
    else if 971 < e then inf neg
    else fin neg m e

/-- The binary64 value nearest to `(-1)^neg * n * 2^e`. -/
def ofScaled (neg : Bool) (n : Nat) (e : Int) : F64 :=
  if 0 ≤ e then ofRatio neg (n * 2 ^ e.toNat) 1 else ofRatio neg n (2 ^ (-e).toNat)

/-- Go conversion `float64(i)` of an integer. -/
def ofInt (i : Int) : F64 := ofRatio (decide (i < 0)) i.natAbs 1

/-- Positive zero, the zero value of a Go `float64`. -/
def zero : F64 := fin false 0 0

/-- The finite value `(-1)^neg * m * 2^e` as an integer multiple of `2^e0`, for `e0 ≤ e`. -/
def key (neg : Bool) (m : Nat) (e e0 : Int) : Int :=
  (if neg then -1 else 1) * ((m : Int) * 2 ^ (e - e0).toNat)

/-- Go `a < b` on `float64`: false as soon as an operand is NaN. -/
def lt : F64 → F64 → Bool
  | nan, _ => false
  | _, nan => false
  | inf n1, inf n2 => n1 && !n2
  | inf n1, fin _ _ _ => n1
  | fin _ _ _, inf n2 => !n2
  | fin n1 m1 e1, fin n2 m2 e2 => decide (key n1 m1 e1 (min e1 e2) < key n2 m2 e2 (min e1 e2))

/-- Go `a <= b` on `float64`: false as soon as an operand is NaN. -/
def le : F64 → F64 → Bool
  | nan, _ => false
  | _, nan => false
  | inf n1, inf n2 => n1 || !n2
  | inf n1, fin _ _ _ => n1
  | fin _ _ _, inf n2 => !n2
  | fin n1 m1 e1, fin n2 m2 e2 => decide (key n1 m1 e1 (min e1 e2) ≤ key n2 m2 e2 (min e1 e2))

/-- Go `a > b` on `float64`. -/
def gt (a b : F64) : Bool := lt b a

/-- Go `a * b` on `float64`. -/
def mul : F64 → F64 → F64
  | nan, _ => nan
  | _, nan => nan
  | inf n1, inf n2 => inf (n1 != n2)
  | inf n1, fin n2 m2 _ => if m2 = 0 then nan else inf (n1 != n2)
  | fin n1 m1 _, inf n2 => if m1 = 0 then nan else inf (n1 != n2)
  | fin n1 m1 e1, fin n2 m2 e2 => ofScaled (n1 != n2) (m1 * m2) (e1 + e2)

/-- Go `a + b` on `float64`. -/
def add : F64 → F64 → F64
  | nan, _ => nan
  | _, nan => nan
  | inf n1, inf n2 => if n1 = n2 then inf n1 else nan
  | inf n1, fin _ _ _ => inf n1
  | fin _ _ _, inf n2 => inf n2
  | fin n1 m1 e1, fin n2 m2 e2 =>
    let s : Int := key n1 m1 e1 (min e1 e2) + key n2 m2 e2 (min e1 e2)
    if s = 0 then fin (n1 && n2) 0 0
    else ofScaled (decide (s < 0)) s.natAbs (min e1 e2)

end F64

/-! ## The `strconv` package -/

/-- The two errors of `strconv`: `ErrSyntax` and `ErrRange`. -/
inductive NumError where
  | errSyntax
  | errRange
deriving DecidableEq, Repr

/-- Whether `c` is one of `0`..`9`. -/
def isDigit (c : Char) : Bool := 0x30 ≤ c.toNat && c.toNat ≤ 0x39

/-- Value of the decimal digit `c`. -/
def digitVal (c : Char) : Nat := c.toNat - 0x30

/-- Whether `c` is one of `a`..`f`, `A`..`F`. -/
def isHexLetter (c : Char) : Bool :=
  (0x61 ≤ c.toNat && c.toNat ≤ 0x66) || (0x41 ≤ c.toNat && c.toNat ≤ 0x46)

/-- Value of the hexadecimal letter `c`. -/
def hexLetterVal (c : Char) : Nat :=
  if 0x61 ≤ c.toNat then c.toNat - 0x61 + 10 else c.toNat - 0x41 + 10

/-- ASCII lower-casing of one character, as `strconv` does it. -/
def lowerASCII (c : Char) : Char :=
  if 0x41 ≤ c.toNat ∧ c.toNat ≤ 0x5A then Char.ofNat (c.toNat + 32) else c

/-- Whether `s` is `inf` or `infinity`, in any letter case. -/
def isInfWord (s : Str) : Bool :=
  s.map lowerASCII = ['i', 'n', 'f'] || s.map lowerASCII = ['i', 'n', 'f', 'i', 'n', 'i', 't', 'y']

/-- The special values accepted by `strconv.ParseFloat`: an optionally signed
`inf` or `infinity`, and an unsigned `nan`, in any letter case. -/
def special (s : Str) : Option F64 :=
  match s with
  | '+' :: r => if isInfWord r then some (F64.inf false) else none
  | '-' :: r => if isInfWord r then some (F64.inf true) else none
  | _ =>
    if isInfWord s then some (F64.inf false)
    else if s.map lowerASCII = ['n', 'a', 'n'] then some F64.nan
    else none

/-- What `readFloat` has read of the digits of a number. -/
structure Digits where
  /-- the digits read so far, as a number in the base -/
  mant : Nat
  /-- how many of them stand after the point -/
  frac : Nat
  sawdot : Bool
  sawdigits : Bool
  underscores : Bool
deriving DecidableEq, Repr

/-- The digit loop of `readFloat`: reads digits, underscores and at most one
point; returns what was read and the unread rest. -/
def scanDigits (hex : Bool) : Str → Digits → Digits × Str
  | [], st => (st, [])
  | c :: cs, st =>
    if c = '_' then scanDigits hex cs { st with underscores := true }
    else if c = '.' then
      (if st.sawdot then (st, c :: cs) else scanDigits hex cs { st with sawdot := true })
    else if isDigit c then
      scanDigits hex cs { st with
        sawdigits := true
        mant := st.mant * (if hex then 16 else 10) + digitVal c
        frac := if st.sawdot then st.frac + 1 else st.frac }
    else if hex && isHexLetter c then
      scanDigits hex cs { st with
        sawdigits := true
        mant := st.mant * 16 + hexLetterVal c
        frac := if st.sawdot then st.frac + 1 else st.frac }
    else (st, c :: cs)

/-- The exponent digit loop of `readFloat`: digits and underscores; the value
stops growing once it has reached 10000. -/
def scanExpDigits : Str → Nat → Bool → Nat × Bool × Str
  | [], e, u => (e, u, [])
  | c :: cs, e, u =>
    if c = '_' then scanExpDigits cs e true
    else if isDigit c then scanExpDigits cs (if e < 10000 then e * 10 + digitVal c else e) u
    else (e, u, c :: cs)

/-- The exponent part of `readFloat`, after the exponent letter: an optional
sign and at least one digit. Returns the exponent, whether an underscore was
seen, and the unread rest. -/
def scanExp (s : Str) : Option (Int × Bool × Str) :=
  let (neg, body) : Bool × Str :=
    match s with
    | '+' :: r => (false, r)
    | '-' :: r => (true, r)
    | _ => (false, s)
  match body with
  | [] => none
  | c :: _ =>
    if isDigit c then
      match scanExpDigits body 0 false with
      | (e, u, rest) => some (if neg then -(e : Int) else (e : Int), u, rest)
    else none

/-- The number loop of `underscoreOK`: `saw` is the last character class seen
(`0` digit or base prefix, `_` underscore, `!` anything else, `^` start). -/
def underscoreLoop (hex : Bool) : Str → Char → Bool
  | [], saw => saw != '_'
  | c :: cs, saw =>
    if isDigit c || (hex && isHexLetter c) then underscoreLoop hex cs '0'
    else if c = '_' then (if saw != '0' then false else underscoreLoop hex cs '_')
    else if saw = '_' then false
    else underscoreLoop hex cs '!'

/-- Go `underscoreOK`: underscores only between digits, or between the base prefix and a digit. -/
def underscoreOK (s : Str) : Bool :=
  let s1 : Str :=
    match s with
    | '+' :: r => r
    | '-' :: r => r
    | _ => s
  match s1 with
  | '0' :: c :: r =>
    if lowerASCII c = 'b' ∨ lowerASCII c = 'o' ∨ lowerASCII c = 'x' then
      underscoreLoop (lowerASCII c = 'x') r '0'
    else underscoreLoop false s1 '^'
  | _ => underscoreLoop false s1 '^'

/-- What `readFloat` returns on success: sign, base, digits, exponent, whether
an underscore was seen, and the unread rest of the text. -/
structure FloatParts where
  neg : Bool
  hex : Bool
  mant : Nat
  frac : Nat
  exp : Int
  underscores : Bool
  rest : Str
deriving DecidableEq, Repr

/-- Go `readFloat`: sign, optional `0x`, digits with at most one point, and an
exponent (`e` for decimal, optional; `p` for hexadecimal, required). -/
def readFloat (s : Str) : Option FloatParts :=
  let (neg, s1) : Bool × Str :=
    match s with
    | '+' :: r => (false, r)
    | '-' :: r => (true, r)
    | _ => (false, s)
  let (hex, s2) : Bool × Str :=
    match s1 with
    | '0' :: x :: c :: r => if lowerASCII x = 'x' then (true, c :: r) else (false, s1)
    | _ => (false, s1)
  match scanDigits hex s2 ⟨0, 0, false, false, false⟩ with
  | (d, s3) =>
    if !d.sawdigits then none
    else
      match s3 with
      | [] => if hex then none else some ⟨neg, hex, d.mant, d.frac, 0, d.underscores, []⟩
      | c :: r =>
        if lowerASCII c = (if hex then 'p' else 'e') then
          match scanExp r with
          | none => none
          | some (e, u, rest) => some ⟨neg, hex, d.mant, d.frac, e, d.underscores || u, rest⟩
        else if hex then none
        else some ⟨neg, hex, d.mant, d.frac, 0, d.underscores, c :: r⟩

/-- The binary64 value of what `readFloat` read. -/
def floatValue (p : FloatParts) : F64 :=
  if p.hex then F64.ofScaled p.neg p.mant (p.exp - 4 * (p.frac : Int))
  else if 0 ≤ p.exp - (p.frac : Int) then
    F64.ofRatio p.neg (p.mant * 10 ^ (p.exp - (p.frac : Int)).toNat) 1
  else F64.ofRatio p.neg p.mant (10 ^ ((p.frac : Int) - p.exp).toNat)

/-- Go `strconv.ParseFloat(s, 64)`: the value and the error. A text that is not
a number gives `(0, ErrSyntax)`; a number too large for binary64 gives an
infinity and `ErrRange`. -/
def parseFloat (s : Str) : F64 × Option NumError :=
  match special s with
  | some v => (v, none)
  | none =>
    match readFloat s with
    | none => (F64.zero, some .errSyntax)
    | some p =>
      if p.rest ≠ [] then (F64.zero, some .errSyntax)
      else if p.underscores && !underscoreOK s then (F64.zero, some .errSyntax)
      else
        match floatValue p with
        | F64.inf n => (F64.inf n, some .errRange)
        | v => (v, none)

/-- Largest `uint64`. -/
def maxUint64 : Nat := 2 ^ 64 - 1

/-- Digit loop of Go `strconv.ParseUint(s, 10, 64)`. -/
def parseUintLoop : Str → Nat → Nat × Option NumError
  | [], n => (n, none)
  | c :: cs, n =>
    if !isDigit c then (0, some .errSyntax)
    else if maxUint64 / 10 + 1 ≤ n then (maxUint64, some .errRange)
    else if maxUint64 < n * 10 + digitVal c then (maxUint64, some .errRange)
    else parseUintLoop cs (n * 10 + digitVal c)

/-- Go `strconv.ParseUint(s, 10, 64)`. -/
def parseUint (s : Str) : Nat × Option NumError :=
  if s = [] then (0, some .errSyntax) else parseUintLoop s 0

/-- Go `strconv.Atoi` on a 64-bit platform, that is `strconv.ParseInt(s, 10, 0)`
(the fast path of `Atoi` gives the same results). -/
def atoi (s : Str) : Int × Option NumError :=
  if s = [] then (0, some .errSyntax)
  else
    let (neg, s1) : Bool × Str :=
      match s with
      | '+' :: r => (false, r)
      | '-' :: r => (true, r)
      | _ => (false, s)
    match parseUint s1 with
    | (_, some .errSyntax) => (0, some .errSyntax)
    | (un, _) =>
      if !neg && 2 ^ 63 ≤ un then (2 ^ 63 - 1, some .errRange)
      else if neg && 2 ^ 63 < un then (-(2 ^ 63), some .errRange)
      else (if neg then -(un : Int) else (un : Int), none)

/-! ## Data model -/

/-- Modelled from the spec: the `BatteryStatus` record (section 3), declared
outside `metrics_battery.go`. -/
structure BatteryStatus where
  Percent : F64
  Status : Str
  TimeLeft : Str
  Health : Str
  CycleCount : Int
deriving DecidableEq, Repr

/-- Modelled from the spec: the `ThermalStatus` record (section 3), declared
outside `metrics_battery.go`. -/
structure ThermalStatus where
  CPUTemp : F64
  FanSpeed : Int
deriving DecidableEq, Repr

/-- Modelled from the spec: the `SensorReading` record (section 3), declared
outside `metrics_battery.go`. -/
structure SensorReading where
  Label : Str
  Value : F64
  Unit : Str
deriving DecidableEq, Repr

/-- The raw reading of the sensor library (`host.TemperatureStat`). -/
structure TemperatureStat where
  SensorKey : Str
  Temperature : F64
  High : F64
  Critical : F64
deriving DecidableEq, Repr

/-! ## Surroundings of the collectors -/

/-- One interaction of a collector with its surroundings. A `run` records the
timeout, in milliseconds, of the context handed to the process runner: `none`
for `context.Background()`, which has no deadline. -/
inductive Event where
  | lookPath (name : Str)
  | run (timeout : Option Nat) (name : Str) (args : List Str)
  | glob (pattern : Str)
  | readFile (path : Str)
deriving DecidableEq, Repr

/-- The surroundings of one collection call. `runCmd` and `fault` depend on the
number of interactions made so far, so the same command may answer differently
when it is run again. Errors are represented by their message. -/
structure Env where
  /-- Go `runtime.GOOS` -/
  goos : Str
  /-- Go `os.Geteuid()` -/
  euid : Int
  /-- The answer of `commandExists(name)`, the source availability probe, which is
  defined outside `metrics_battery.go` and taken as a parameter -/
  commandExists : Str → Bool
  /-- The answer (output and error) of `runCmd(ctx, name, args...)`, the bounded
  process runner, which is defined outside `metrics_battery.go` and taken as a
  parameter; its second argument is the timeout of the context, if it has one -/
  runCmd : Nat → Option Nat → Str → List Str → Str × Option Str
  /-- Go `filepath.Glob(pattern)`: the matches -/
  glob : Str → List Str
  /-- Go `os.ReadFile(path)`: data and error -/
  readFile : Str → Str × Option Str
  /-- the description of the runtime fault raised by the interaction with this number, if any -/
  fault : Nat → Option Str

/-- No interaction raises a runtime fault. -/
def Env.FaultFree (env : Env) : Prop := ∀ t, env.fault t = none

/-- Outcome of a computation that interacts with the surroundings: a value or a
runtime fault (panic), with the trace of all interactions made so far. -/
inductive Res (α : Type) where
  | ok (val : α) (tr : List Event)
  | panic (r : Str) (tr : List Event)
deriving DecidableEq, Repr

/-- The trace of an outcome. -/
def Res.trace {α : Type} : Res α → List Event
  | .ok _ tr => tr
  | .panic _ tr => tr

/-- One interaction: it is recorded, and either faults or gives its answer. -/
def interact {α : Type} (env : Env) (ev : Event) (answer : α) (tr : List Event) : Res α :=
  match env.fault tr.length with
  | some r => .panic r (tr ++ [ev])
  | none => .ok answer (tr ++ [ev])

/-- Call of `commandExists(name)`. -/
def commandExists (env : Env) (name : Str) (tr : List Event) : Res Bool :=
  interact env (.lookPath name) (env.commandExists name) tr

/-- Call of `runCmd(ctx, name, args...)`. -/
def runCmd (env : Env) (timeout : Option Nat) (name : Str) (args : List Str)
    (tr : List Event) : Res (Str × Option Str) :=
  interact env (.run timeout name args) (env.runCmd tr.length timeout name args) tr

/-- Call of `filepath.Glob(pattern)`. -/
def filepathGlob (env : Env) (pattern : Str) (tr : List Event) : Res (List Str) :=
  interact env (.glob pattern) (env.glob pattern) tr

/-- Call of `os.ReadFile(path)`. -/
def osReadFile (env : Env) (path : Str) (tr : List Event) : Res (Str × Option Str) :=
  interact env (.readFile path) (env.readFile path) tr

/-! ## `getBatteryHealth` -/

/-- The line loop of `getBatteryHealth`. -/
def healthScan : List Str → Str → Int → Str × Int
  | [], health, cycles => (health, cycles)
  | line :: rest, health, cycles =>
    let lower := stringsToLower line
    let cycles1 : Int :=
      if stringsContains lower "cycle count".toList then
        (match stringsSplit ':' line with
          | [_, p1] => (atoi (stringsTrimSpace p1)).1
          | _ => cycles)
      else cycles
    let health1 : Str :=
      if stringsContains lower "condition".toList then
        (match stringsSplit ':' line with
          | [_, p1] => stringsTrimSpace p1
          | _ => health)
      else health
    healthScan rest health1 cycles1

/-- Go `getBatteryHealth`: condition label and cycle count from `system_profiler`. -/
def getBatteryHealth (env : Env) (tr : List Event) : Res (Str × Int) :=
  if env.goos ≠ "darwin".toList then .ok ([], 0) tr
  else
    match runCmd env (some 2000) "system_profiler".toList ["SPPowerDataType".toList] tr with
    | .panic r tr1 => .panic r tr1
    | .ok (out, err) tr1 =>
      if err.isSome then .ok ([], 0) tr1
      else .ok (healthScan (stringsSplit '\n' out) [] 0) tr1

/-! ## `parsePMSet` -/

/-- The loop over `parts` that looks for the word `remaining` (inside the line
loop of `parsePMSet`); `parts` is the whole list, the second argument what is
left of it, with indices. -/
def remainingLoop (parts : List Str) : List (Nat × Str) → Str → Str
  | [], timeLeft => timeLeft
  | (i, p) :: rest, timeLeft =>
    if p = "remaining".toList ∧ 0 < i then remainingLoop parts rest (parts.getD (i - 1) [])
    else remainingLoop parts rest timeLeft

/-- The loop over `fields` that looks for the percent token (inside the line
loop of `parsePMSet`): the values of `percent`, `found` and `status` after it. -/
def percentLoop (fields : List Str) : List (Nat × Str) → F64 × Bool × Str
  | [] => (F64.zero, false, "Unknown".toList)
  | (i, f) :: rest =>
    if stringsContains f "%".toList then
      match parseFloat (stringsTrimSuffix (stringsTrimSuffix f ";".toList) "%".toList) with
      | (p, none) =>
        (p, true,
          if i + 1 < fields.length then stringsTrimSuffix (fields.getD (i + 1) []) ";".toList
          else "Unknown".toList)
      | (_, some _) => (F64.zero, false, "Unknown".toList)
    else percentLoop fields rest

/-- The line loop of `parsePMSet`, with the variables `timeLeft` and `out`. -/
def parsePMSetLoop (env : Env) :
    List Str → Str → List BatteryStatus → List Event → Res (List BatteryStatus)
  | [], _, out, tr => .ok out tr
  | line :: rest, timeLeft, out, tr =>
    let timeLeft1 : Str :=
      if stringsContains line "remaining".toList then
        remainingLoop (stringsFields line) (stringsFields line).enum timeLeft
      else timeLeft
    if !stringsContains line "%".toList then parsePMSetLoop env rest timeLeft1 out tr
    else
      match percentLoop (stringsFields line) (stringsFields line).enum with
      | (percent, found, status) =>
        if !found then parsePMSetLoop env rest timeLeft1 out tr
        else
          match getBatteryHealth env tr with
          | .panic r tr1 => .panic r tr1
          | .ok (health, cycles) tr1 =>
            parsePMSetLoop env rest timeLeft1
              (out ++ [⟨percent, status, timeLeft1, health, cycles⟩]) tr1

/-- Go `parsePMSet`. -/
def parsePMSet (env : Env) (raw : Str) (tr : List Event) : Res (List BatteryStatus) :=
  parsePMSetLoop env (stringsSplit '\n' raw) [] [] tr

/-! ## `collectBatteries` -/

/-- The error made by the deferred `recover` of `collectBatteries`. -/
def collectionFailed (r : Str) : Str := "battery collection failed: ".toList ++ r

/-- The loop of `collectBatteries` over the capacity files: the value of `batts`
when the loop ends or faults, and how it ended. -/
def sysfsLoop (env : Env) :
    List Str → List BatteryStatus → List Event → List BatteryStatus × Res Unit
  | [], batts, tr => (batts, .ok () tr)
  | capFile :: rest, batts, tr =>
    let statusFile := filepathJoin (filepathDir capFile) "status".toList
    match osReadFile env capFile tr with
    | .panic r tr1 => (batts, .panic r tr1)
    | .ok (capData, err) tr1 =>
      if err.isSome then sysfsLoop env rest batts tr1
      else
        match osReadFile env statusFile tr1 with
        | .panic r tr2 => (batts, .panic r tr2)
        | .ok (statusData, _) tr2 =>
          let percentStr := stringsTrimSpace capData
          let percent := (parseFloat percentStr).1
          let status := stringsTrimSpace statusData
          let status1 := if status = [] then "Unknown".toList else status
          sysfsLoop env rest (batts ++ [⟨percent, status1, [], [], 0⟩]) tr2

/-- The second half of `collectBatteries`, from the glob on: the returned
`(batts, err)` and the trace. -/
def collectBatteriesSysfs (env : Env) (tr : List Event) :
    (List BatteryStatus × Option Str) × List Event :=
  match filepathGlob env "/sys/class/power_supply/BAT*/capacity".toList tr with
  | .panic r tr1 => (([], some (collectionFailed r)), tr1)
  | .ok matched tr1 =>
    match sysfsLoop env matched [] tr1 with
    | (batts, .panic r tr2) => ((batts, some (collectionFailed r)), tr2)
    | (batts, .ok _ tr2) =>
      if 0 < batts.length then ((batts, none), tr2)
      else (([], some "no battery data found".toList), tr2)

/-- Go `collectBatteries`: the returned `(batts, err)` and the trace. A fault
is recovered into `err`, `batts` keeping its value at the time of the fault. -/
def collectBatteries (env : Env) (tr : List Event) :
    (List BatteryStatus × Option Str) × List Event :=
  if env.goos = "darwin".toList then
    match commandExists env "pmset".toList tr with
    | .panic r tr1 => (([], some (collectionFailed r)), tr1)
    | .ok false tr1 => collectBatteriesSysfs env tr1
    | .ok true tr1 =>
      match runCmd env none "pmset".toList ["-g".toList, "batt".toList] tr1 with
      | .panic r tr2 => (([], some (collectionFailed r)), tr2)
      | .ok (out, err) tr2 =>
        if err.isSome then collectBatteriesSysfs env tr2
        else
          match parsePMSet env out tr2 with
          | .panic r tr3 => (([], some (collectionFailed r)), tr3)
          | .ok batts tr3 =>
            if 0 < batts.length then ((batts, none), tr3)
            else collectBatteriesSysfs env tr3
  else collectBatteriesSysfs env tr

/-! ## `collectThermal` -/

/-- The fan loop of `collectThermal` over the lines of the power report: the
value of `thermal.FanSpeed` after it. -/
def fanScan : List Str → Int → Int
  | [], fan => fan
  | line :: rest, fan =>
    let lower := stringsToLower line
    if stringsContains lower "fan".toList && stringsContains lower "speed".toList then
      match stringsSplit ':' line with
      | [_, p1] =>
        fanScan rest (atoi ((stringsSplit ' ' (stringsTrimSpace p1)).headD [])).1
      | _ => fanScan rest fan
    else fanScan rest fan

/-- The text `collectThermal` parses from the output of `osx-cpu-temp`. -/
def osxTempText (out : Str) : Str :=
  stringsTrimSpace
    (stringsTrimSuffix (stringsTrimSuffix (stringsTrimSpace out) "°C".toList) "C".toList)

/-- The loop of `collectThermal` over the lines of `powermetrics`: the
temperature it returns with, if it does. -/
def dieTempScan : List Str → Option F64
  | [] => none
  | line :: rest =>
    if stringsContains line "CPU die temperature".toList then
      match stringsSplit ':' line with
      | [_, p1] =>
        (match parseFloat (stringsTrimSuffix (stringsTrimSpace p1) " C".toList) with
          | (t, none) => some t
          | (_, some _) => dieTempScan rest)
      | _ => dieTempScan rest
    else dieTempScan rest

/-- Step 3 of `collectThermal`: the thermal level as a proxy. -/
def thermalLevel (env : Env) (thermal : ThermalStatus) (tr : List Event) : Res ThermalStatus :=
  match runCmd env (some 500) "sysctl".toList
      ["-n".toList, "machdep.xcpm.cpu_thermal_level".toList] tr with
  | .panic r tr1 => .panic r tr1
  | .ok (out2, err) tr1 =>
    if err.isSome then .ok thermal tr1
    else
      let level := (atoi (stringsTrimSpace out2)).1
      if 0 ≤ level then
        .ok { thermal with
          CPUTemp := F64.add (F64.ofInt 45) (F64.mul (F64.ofInt level) (F64.ofRatio false 1 2)) } tr1
      else .ok thermal tr1

/-- Steps 2 and 3 of `collectThermal`: `powermetrics`, then the thermal level. -/
def thermalPowermetrics (env : Env) (thermal : ThermalStatus) (tr : List Event) :
    Res ThermalStatus :=
  match commandExists env "powermetrics".toList tr with
  | .panic r tr1 => .panic r tr1
  | .ok false tr1 => thermalLevel env thermal tr1
  | .ok true tr1 =>
    if env.euid = 0 then
      match runCmd env (some 2000) "powermetrics".toList
          ["-n".toList, "1".toList, "--samplers".toList, "thermal".toList, "-i".toList,
            "100".toList] tr1 with
      | .panic r tr2 => .panic r tr2
      | .ok (out, err) tr2 =>
        if err.isSome then thermalLevel env thermal tr2
        else
          match dieTempScan (stringsSplit '\n' out) with
          | some t => .ok { thermal with CPUTemp := t } tr2
          | none => thermalLevel env thermal tr2
    else thermalLevel env thermal tr1

/-- Go `collectThermal`. -/
def collectThermal (env : Env) (tr : List Event) : Res ThermalStatus :=
  if env.goos ≠ "darwin".toList then .ok ⟨F64.zero, 0⟩ tr
  else
    match runCmd env (some 2000) "system_profiler".toList ["SPPowerDataType".toList] tr with
    | .panic r tr1 => .panic r tr1
    | .ok (out, err) tr1 =>
      let thermal : ThermalStatus :=
        ⟨F64.zero, if err.isSome then 0 else fanScan (stringsSplit '\n' out) 0⟩
      match commandExists env "osx-cpu-temp".toList tr1 with
      | .panic r tr2 => .panic r tr2
      | .ok false tr2 => thermalPowermetrics env thermal tr2
      | .ok true tr2 =>
        match runCmd env (some 500) "osx-cpu-temp".toList [] tr2 with
        | .panic r tr3 => .panic r tr3
        | .ok (out1, err1) tr3 =>
          if err1.isSome then thermalPowermetrics env thermal tr3
          else
            match parseFloat (osxTempText out1) with
            | (t, none) =>
              if F64.gt t F64.zero then .ok { thermal with CPUTemp := t } tr3
              else thermalPowermetrics env thermal tr3
            | (_, some _) => thermalPowermetrics env thermal tr3

/-! ## `collectSensors` and `prettifyLabel` -/

/-- Go `prettifyLabel`. -/
def prettifyLabel (key : Str) : Str :=
  stringsReplaceAll (stringsTrimLeading (stringsTrimSpace key) "TC".toList) '_' ' '

/-- The loop of `collectSensors` over the raw readings, with the variable `out`. -/
def sensorsLoop : List TemperatureStat → List SensorReading → List SensorReading
  | [], out => out
  | t :: rest, out =>
    if F64.le t.Temperature F64.zero || F64.gt t.Temperature (F64.ofInt 150) then
      sensorsLoop rest out
    else sensorsLoop rest (out ++ [⟨prettifyLabel t.SensorKey, t.Temperature, "°C".toList⟩])

/-- Go `collectSensors`, as a function of what `host.SensorsTemperatures()`
returned (the raw readings and the error). -/
def collectSensors (facility : List TemperatureStat × Option Str) :
    List SensorReading × Option Str :=
  match facility with
  | (_, some err) => ([], some err)
  | (temps, none) => (sensorsLoop temps [], none)

/-! ## Pieces of the loop bodies, named for the statements below -/

/-- The value of `timeLeft` after the line loop of `parsePMSet` has looked at
`line` (first block of the loop body). -/
def timeLeftAfter (timeLeft line : Str) : Str :=
  if stringsContains line "remaining".toList then
    remainingLoop (stringsFields line) (stringsFields line).enum timeLeft
  else timeLeft

/-- The percent and status of the reading that the line loop of `parsePMSet`
appends for `line`, or `none` when it skips the line (second block of the loop body). -/
def lineReading (line : Str) : Option (F64 × Str) :=
  if !stringsContains line "%".toList then none
  else
    match percentLoop (stringsFields line) (stringsFields line).enum with
    | (percent, true, status) => some (percent, status)
    | (_, false, _) => none

/-- The readings `o` are what the line loop of `parsePMSet` appends for `line`
when `timeLeft` has the value `tl` after the line's first block. -/
def LineOut (line tl : Str) (o : List BatteryStatus) : Prop :=
  match lineReading line with
  | none => o = []
  | some (p, st) => ∃ h c, o = [⟨p, st, tl, h, c⟩]

/-- Status label read after the percent token: the next token without its
trailing semicolon, `Unknown` when there is no next token. -/
def statusOf (post : List Str) : Str :=
  match post with
  | [] => "Unknown".toList
  | nxt :: _ => stringsTrimSuffix nxt ";".toList

/-- Some token of the line other than its first one is the word `remaining`. -/
def HasRemaining (line : Str) : Prop := "remaining".toList ∈ (stringsFields line).tail

instance (line : Str) : Decidable (HasRemaining line) :=
  inferInstanceAs (Decidable ("remaining".toList ∈ (stringsFields line).tail))

/-- A macOS machine with `pmset` and `system_profiler`, one battery at 87 percent. -/
def envMac : Env where
  goos := "darwin".toList
  euid := 501
  commandExists := fun n => n = "pmset".toList
  runCmd := fun _ _ n _ =>
    if n = "pmset".toList then
      ("Now drawing from Battery Power\n -InternalBattery-0 (id=1)\t87%; discharging; 1:45 remaining present: true\n".toList,
        none)
    else if n = "system_profiler".toList then
      ("      Cycle Count: 123\n      Condition: Normal\n".toList, none)
    else ([], some "exit status 1".toList)
  glob := fun _ => []
  readFile := fun _ => ([], some "no such file".toList)
  fault := fun _ => none

/-- A Linux machine without a battery. -/
def envLinux : Env where
  goos := "linux".toList
  euid := 1000
  commandExists := fun _ => false
  runCmd := fun _ _ _ _ => ([], some "executable file not found".toList)
  glob := fun _ => []
  readFile := fun _ => ([], some "no such file".toList)
  fault := fun _ => none

/-- A macOS machine on which `osx-cpu-temp` is installed and prints `42.1°C`;
any interaction after the third one raises a fault. -/
def envOsxTemp : Env where
  goos := "darwin".toList
  euid := 0
  commandExists := fun _ => true
  runCmd := fun _ _ n _ =>
    if n = "osx-cpu-temp".toList then ("42.1°C\n".toList, none)
    else if n = "system_profiler".toList then ("  Fan Speed: 1200 RPM\n".toList, none)
    else ("CPU die temperature: 99.00 C\n".toList, none)
  glob := fun _ => []
  readFile := fun _ => ([], some "no such file".toList)
  fault := fun t => if t < 3 then none else some "lower-priority probe invoked".toList

/-- A macOS machine without `osx-cpu-temp` and `powermetrics`, on which the
thermal-level `sysctl` succeeds but prints no integer. -/
def envNoLevel : Env where
  goos := "darwin".toList
  euid := 501
  commandExists := fun _ => false
  runCmd := fun _ _ n _ =>
    if n = "sysctl".toList then ("n/a\n".toList, none)
    else ([], some "exit status 1".toList)
  glob := fun _ => []
  readFile := fun _ => ([], some "no such file".toList)
  fault := fun _ => none

/-- Reference definition of the sensor adapter, from section 4.7 of the spec:
a facility failure is passed on untouched; otherwise the raw readings whose
value is neither `<= 0` nor `> 150` are kept, in order, with a prettified label
and the unit `°C`. -/
def collectSensorsRef (facility : List TemperatureStat × Option Str) :
    List SensorReading × Option Str :=
  match facility.2 with
  | some e => ([], some e)
  | none =>
    ((facility.1.filter (fun t =>
        !(F64.le t.Temperature F64.zero) && !(F64.gt t.Temperature (F64.ofInt 150)))).map
      (fun t => ⟨prettifyLabel t.SensorKey, t.Temperature, "°C".toList⟩), none)

/-- Whether an interaction belongs to the sysfs source (a glob or a file read). -/
def Event.isSysfs : Event → Bool
  | .glob _ => true
  | .readFile _ => true
  | _ => false

/-- Reference definition of what the sysfs source makes of one capacity file:
nothing when the capacity file cannot be read; otherwise a reading whose
`Percent` is the value `ParseFloat` gives for the trimmed content and whose
`Status` is the trimmed data read from the adjacent `status` file, or `Unknown`
when that is empty. -/
def sysfsReadingRef (readFile : Str → Str × Option Str) (capFile : Str) :
    Option BatteryStatus :=
  if (readFile capFile).2.isSome then none
  else
    some
      { Percent := (parseFloat (stringsTrimSpace (readFile capFile).1)).1
        Status :=
          if stringsTrimSpace (readFile (filepathJoin (filepathDir capFile) "status".toList)).1 = []
          then "Unknown".toList
          else stringsTrimSpace (readFile (filepathJoin (filepathDir capFile) "status".toList)).1
        TimeLeft := []
        Health := []
        CycleCount := 0 }

/-- Reference definition of the readings of the sysfs source, as a function of
the glob and of the file contents only. -/
def sysfsReadingsRef (glob : Str → List Str) (readFile : Str → Str × Option Str) :
    List BatteryStatus :=
  (glob "/sys/class/power_supply/BAT*/capacity".toList).filterMap (sysfsReadingRef readFile)

/-- The pmset source yields the readings `batts`, ending with trace `tr3`: the
platform is darwin, `pmset` is resolvable, its run (the second interaction from
`tr`) succeeds with some output `o`, and `parsePMSet o` is the non-empty `batts`. -/
def PmsetYields (env : Env) (tr : List Event) (batts : List BatteryStatus)
    (tr3 : List Event) : Prop :=
  env.goos = "darwin".toList ∧ env.commandExists "pmset".toList = true ∧
  ∃ o, env.runCmd (tr.length + 1) none "pmset".toList ["-g".toList, "batt".toList] = (o, none) ∧
    parsePMSet env o
      (tr ++ [Event.lookPath "pmset".toList,
        Event.run none "pmset".toList ["-g".toList, "batt".toList]]) = .ok batts tr3 ∧
    batts ≠ []

/-- A Linux machine whose one battery directory has an unreadable capacity file. -/
def envUnreadable : Env where
  goos := "linux".toList
  euid := 1000
  commandExists := fun _ => false
  runCmd := fun _ _ _ _ => ([], some "executable file not found".toList)
  glob := fun _ => ["/sys/class/power_supply/BAT0/capacity".toList]
  readFile := fun p =>
    if p = "/sys/class/power_supply/BAT0/status".toList then ("Charging\n".toList, none)
    else ([], some "permission denied".toList)
  fault := fun _ => none

/-- A Linux machine with two batteries; the second has no status file. -/
def envTwoBatteries : Env where
  goos := "linux".toList
  euid := 1000
  commandExists := fun _ => false
  runCmd := fun _ _ _ _ => ([], some "executable file not found".toList)
  glob := fun _ =>
    ["/sys/class/power_supply/BAT0/capacity".toList, "/sys/class/power_supply/BAT1/capacity".toList]
  readFile := fun p =>
    if p = "/sys/class/power_supply/BAT0/capacity".toList then ("87\n".toList, none)
    else if p = "/sys/class/power_supply/BAT0/status".toList then ("Discharging\n".toList, none)
    else if p = "/sys/class/power_supply/BAT1/capacity".toList then ("n/a\n".toList, none)
    else ([], some "no such file".toList)
  fault := fun _ => none

/-- Reference definition of the label normalisation, from section 4.7 of the
spec: trim the surrounding white space, remove one leading `TC` when there is
one, and replace every underscore by a space. -/
def prettifyLabelRef (key : Str) : Str :=
  let trimmed := stringsTrimSpace key
  let body : Str :=
    match trimmed with
    | 'T' :: 'C' :: rest => rest
    | _ => trimmed
  body.map (fun c => if c = '_' then ' ' else c)

/-- The one interaction of `getBatteryHealth`: the run of `system_profiler`. -/
def healthQuery : Event :=
  Event.run (some 2000) "system_profiler".toList ["SPPowerDataType".toList]

/-- The trace `tr` after `n` calls of `getBatteryHealth`: `n` more runs of
`system_profiler` on darwin, nothing more elsewhere. -/
def healthTrace (env : Env) (tr : List Event) (n : Nat) : List Event :=
  if env.goos = "darwin".toList then tr ++ List.replicate n healthQuery else tr

/-- A macOS machine whose `system_profiler` answers the first time and is
killed at its deadline afterwards. -/
def envFlakyHealth : Env where
  goos := "darwin".toList
  euid := 501
  commandExists := fun _ => true
  runCmd := fun t _ n _ =>
    if n = "system_profiler".toList ∧ t = 0 then
      ("      Cycle Count: 123\n      Condition: Normal\n".toList, none)
    else ([], some "signal: killed".toList)
  glob := fun _ => []
  readFile := fun _ => ([], some "no such file".toList)
  fault := fun _ => none

/-- The reading with its `TimeLeft` erased. -/
def BatteryStatus.withoutTimeLeft (b : BatteryStatus) : BatteryStatus :=
  { b with TimeLeft := [] }

/-- The outcome of a parse with the `TimeLeft` of every reading erased. -/
def Res.withoutTimeLeft : Res (List BatteryStatus) → Res (List BatteryStatus)
  | .ok batts tr => .ok (batts.map BatteryStatus.withoutTimeLeft) tr
  | .panic r tr => .panic r tr

/-- A line that `parsePMSet` is to skip: none of its tokens contains `%`, or its
first token containing `%`, stripped of `;` and `%`, is not parsed as a number. -/
def BadLine (line : Str) : Prop :=
  (∀ t ∈ stringsFields line, stringsContains t "%".toList = false) ∨
  ∃ (pre post : List Str) (tok : Str),
    stringsFields line = pre ++ tok :: post ∧
    (∀ t ∈ pre, stringsContains t "%".toList = false) ∧
    stringsContains tok "%".toList = true ∧
    (parseFloat (stringsTrimSuffix (stringsTrimSuffix tok ";".toList) "%".toList)).2 ≠ none

/-- The value lies between 0 and 100, bounds included. -/
def F64.isPercent (p : F64) : Prop :=
  F64.le F64.zero p = true ∧ F64.le p (F64.ofInt 100) = true

instance (p : F64) : Decidable (F64.isPercent p) :=
  inferInstanceAs (Decidable (F64.le F64.zero p = true ∧ F64.le p (F64.ofInt 100) = true))

/-- A macOS machine without battery files whose `pmset` run fails. -/
def envPmsetFails : Env where
  goos := "darwin".toList
  euid := 501
  commandExists := fun n => n = "pmset".toList
  runCmd := fun _ _ _ _ => ([], some "context deadline exceeded".toList)
  glob := fun _ => []
  readFile := fun _ => ([], some "no such file".toList)
  fault := fun _ => none

/-- A macOS machine without battery files whose `pmset` runs and reports no battery. -/
def envPmsetNoBattery : Env where
  goos := "darwin".toList
  euid := 501
  commandExists := fun n => n = "pmset".toList
  runCmd := fun _ _ n _ =>
    if n = "pmset".toList then ("Now drawing from AC Power\n".toList, none)
    else ([], some "exit status 1".toList)
  glob := fun _ => []
  readFile := fun _ => ([], some "no such file".toList)
  fault := fun _ => none

/-- The text that follows the first colon of the line (empty when there is none). -/
def afterFirstColon (line : Str) : Str := (line.dropWhile (fun c => c != ':')).drop 1

/-- A line of the power report from which `getBatteryHealth` takes the cycle
count: it mentions `cycle count`, in any letter case, and has exactly one colon. -/
def CycleLine (line : Str) : Prop :=
  stringsContains (stringsToLower line) "cycle count".toList = true ∧ line.count ':' = 1

instance (line : Str) : Decidable (CycleLine line) :=
  inferInstanceAs (Decidable (_ ∧ _))

/-- A line of the power report from which `getBatteryHealth` takes the condition
label: it mentions `condition`, in any letter case, and has exactly one colon. -/
def ConditionLine (line : Str) : Prop :=
  stringsContains (stringsToLower line) "condition".toList = true ∧ line.count ':' = 1

instance (line : Str) : Decidable (ConditionLine line) :=
  inferInstanceAs (Decidable (_ ∧ _))

/-- A line of the power report from which `collectThermal` takes the fan speed:
it mentions `fan` and `speed`, in any letter case, and has exactly one colon. -/
def FanLine (line : Str) : Prop :=
  (stringsContains (stringsToLower line) "fan".toList = true ∧
    stringsContains (stringsToLower line) "speed".toList = true) ∧ line.count ':' = 1

instance (line : Str) : Decidable (FanLine line) :=
  inferInstanceAs (Decidable (_ ∧ _))

/-- A macOS machine whose power report has a condition line with two colons and
a fan line with two colons. -/
def envTwoColons : Env where
  goos := "darwin".toList
  euid := 501
  commandExists := fun _ => false
  runCmd := fun _ _ n _ =>
    if n = "system_profiler".toList then
      ("      Cycle Count: 123\n      Condition: Normal: ok\n      Fan Speed: 1200 RPM (max: 6000)\n".toList,
        none)
    else ([], some "exit status 1".toList)
  glob := fun _ => []
  readFile := fun _ => ([], some "no such file".toList)
  fault := fun _ => none

/-- A macOS machine whose power report has one fan line and whose thermal level is 50. -/
def envFan : Env where
  goos := "darwin".toList
  euid := 501
  commandExists := fun _ => false
  runCmd := fun _ _ n _ =>
    if n = "system_profiler".toList then ("  Fan Speed: 1200 RPM\n".toList, none)
    else if n = "sysctl".toList then ("50\n".toList, none)
    else ([], some "exit status 1".toList)
  glob := fun _ => []
  readFile := fun _ => ([], some "no such file".toList)
  fault := fun _ => none

/-- The description of the fault an outcome ended with, if it did. -/
def Res.fault? {α : Type} : Res α → Option Str
  | .ok _ _ => none
  | .panic r _ => some r

/-- The outcome `res` of a computation started at trace `tr` tells the faults of
its own interactions: its trace extends `tr`, and if one of the interactions it
added raised a fault with description `r`, it ended with that fault. -/
def FaultsAs {α : Type} (env : Env) (tr : List Event) (res : Res α) : Prop :=
  tr.length ≤ res.trace.length ∧
  ∀ (t : Nat) (r : Str), tr.length ≤ t → t < res.trace.length → env.fault t = some r →
    res.fault? = some r

/-- A macOS machine on which the run of `pmset` raises a runtime fault. -/
def envPmsetPanics : Env where
  goos := "darwin".toList
  euid := 501
  commandExists := fun _ => true
  runCmd := fun _ _ _ _ => ([], none)
  glob := fun _ => []
  readFile := fun _ => ([], some "no such file".toList)
  fault := fun t => if t = 1 then some "runtime error: nil pointer dereference".toList else none

/-- The returned `(batts, err)` and trace `res` of `collectBatteries`, started at
trace `tr`, tell the faults of its interactions through `err`: the trace
extends `tr`, and if one of the interactions added raised a fault with
description `r`, then `err` is the error made by the deferred `recover` for `r`. -/
def Recovered (env : Env) (tr : List Event)
    (res : (List BatteryStatus × Option Str) × List Event) : Prop :=
  tr.length ≤ res.2.length ∧
  ∀ (t : Nat) (r : Str), tr.length ≤ t → t < res.2.length → env.fault t = some r →
    res.1.2 = some (collectionFailed r)

/-- Step 1 of `collectThermal` determines `CPUTemp` when its run is interaction
number `t`: `osx-cpu-temp` is installed, the run succeeds, and the trimmed
output parses as a number above 0. -/
def osxDetermines (env : Env) (t : Nat) : Bool :=
  env.commandExists "osx-cpu-temp".toList &&
    match env.runCmd t (some 500) "osx-cpu-temp".toList [] with
    | (out, none) =>
      (match parseFloat (osxTempText out) with
        | (v, none) => F64.gt v F64.zero
        | (_, some _) => false)
    | (_, some _) => false

/-- Step 2 of `collectThermal` determines `CPUTemp` when its run is interaction
number `t`: `powermetrics` is installed, the effective user is root, the run
succeeds, and some line of the output yields a die temperature. -/
def powermetricsDetermines (env : Env) (t : Nat) : Bool :=
  env.commandExists "powermetrics".toList && decide (env.euid = 0) &&
    match env.runCmd t (some 2000) "powermetrics".toList
        ["-n".toList, "1".toList, "--samplers".toList, "thermal".toList, "-i".toList,
          "100".toList] with
    | (out, none) => (dieTempScan (stringsSplit '\n' out)).isSome
    | (_, some _) => false

/-- A macOS machine, not root, on which `osx-cpu-temp` and `powermetrics` are
both installed, the run of `osx-cpu-temp` fails, and the thermal level is 50. -/
def envLevelOnly : Env where
  goos := "darwin".toList
  euid := 501
  commandExists := fun _ => true
  runCmd := fun _ _ n _ =>
    if n = "system_profiler".toList then ("  Fan Speed: 1200 RPM\n".toList, none)
    else if n = "sysctl".toList then ("50\n".toList, none)
    else if n = "powermetrics".toList then ("CPU die temperature: 35.43 C\n".toList, none)
    else ([], some "exit status 1".toList)
  glob := fun _ => []
  readFile := fun _ => ([], some "no such file".toList)
  fault := fun _ => none

/-- The one interaction of step 3 of `collectThermal`: the run of `sysctl`. -/
def sysctlQuery : Event :=
  Event.run (some 500) "sysctl".toList ["-n".toList, "machdep.xcpm.cpu_thermal_level".toList]

/-- The estimate `45 + float64(level) * 0.5` of step 3 of `collectThermal`. -/
def levelTemp (level : Int) : F64 :=
  F64.add (F64.ofInt 45) (F64.mul (F64.ofInt level) (F64.ofRatio false 1 2))

/-! # Properties -/

/-! ## Interactions without faults -/

theorem interact_ok {α : Type} (env : Env) (hff : env.FaultFree) (ev : Event) (a : α)
    (tr : List Event) : interact env ev a tr = .ok a (tr ++ [ev]) := by
  unfold interact
  rw [hff tr.length]

theorem runCmd_at (env : Env) (timeout : Option Nat) (name : Str) (args : List Str)
    (tr : List Event) (h : env.fault tr.length = none) :
    runCmd env timeout name args tr
      = .ok (env.runCmd tr.length timeout name args) (tr ++ [.run timeout name args]) := by
  unfold runCmd interact
  rw [h]

theorem commandExists_at (env : Env) (name : Str) (tr : List Event)
    (h : env.fault tr.length = none) :
    commandExists env name tr = .ok (env.commandExists name) (tr ++ [.lookPath name]) := by
  unfold commandExists interact
  rw [h]

theorem getBatteryHealth_ok (env : Env) (hff : env.FaultFree) (tr : List Event) :
    ∃ hc tr1, getBatteryHealth env tr = .ok hc tr1 := by
  unfold getBatteryHealth
  split
  · exact ⟨_, _, rfl⟩
  · rw [runCmd, interact_ok env hff]
    dsimp only
    split
    · exact ⟨_, _, rfl⟩
    · exact ⟨_, _, rfl⟩

/-! ## The percent loop -/

theorem percentLoop_skip (fields : List Str) :
    ∀ (l : List Str) (k : Nat) (rest : List (Nat × Str)),
      (∀ t ∈ l, stringsContains t "%".toList = false) →
      percentLoop fields (List.enumFrom k l ++ rest) = percentLoop fields rest := by
  intro l
  induction l with
  | nil => intro k rest _; rfl
  | cons a l ih =>
    intro k rest h
    have ha : stringsContains a "%".toList = false := h a (List.mem_cons_self _ _)
    rw [List.enumFrom_cons, List.cons_append, percentLoop]
    simp only [ha, Bool.false_eq_true, if_false]
    exact ih (k + 1) rest (fun t ht => h t (List.mem_cons_of_mem _ ht))

theorem getD_after_token (pre post : List Str) (tok nxt : Str) :
    (pre ++ tok :: nxt :: post).getD (pre.length + 1) [] = nxt := by
  induction pre with
  | nil => rfl
  | cons a pre ih => simpa using ih

theorem percentLoop_found (pre post : List Str) (tok : Str) (p : F64)
    (hpre : ∀ t ∈ pre, stringsContains t "%".toList = false)
    (htok : stringsContains tok "%".toList = true)
    (hp : parseFloat (stringsTrimSuffix (stringsTrimSuffix tok ";".toList) "%".toList) = (p, none)) :
    percentLoop (pre ++ tok :: post) (pre ++ tok :: post).enum = (p, true, statusOf post) := by
  rw [List.enum, List.enumFrom_append, percentLoop_skip _ pre 0 _ hpre, List.enumFrom_cons,
    percentLoop]
  simp only [htok, if_true, hp, zero_add]
  cases post with
  | nil => simp [statusOf]
  | cons nxt post =>
    rw [getD_after_token]
    simp [statusOf]

theorem lineReading_found (line : Str) (pre post : List Str) (tok : Str) (p : F64)
    (hline : stringsContains line "%".toList = true)
    (hf : stringsFields line = pre ++ tok :: post)
    (hpre : ∀ t ∈ pre, stringsContains t "%".toList = false)
    (htok : stringsContains tok "%".toList = true)
    (hp : parseFloat (stringsTrimSuffix (stringsTrimSuffix tok ";".toList) "%".toList) = (p, none)) :
    lineReading line = some (p, statusOf post) := by
  unfold lineReading
  rw [hline, hf, percentLoop_found pre post tok p hpre htok hp]
  rfl

/-! ## The line loop of `parsePMSet` -/

theorem parsePMSetLoop_outs (env : Env) (hff : env.FaultFree) :
    ∀ (lines : List Str) (tl : Str) (out : List BatteryStatus) (tr : List Event),
      ∃ (outs : List (List BatteryStatus)) (tr1 : List Event),
        parsePMSetLoop env lines tl out tr = .ok (out ++ outs.flatten) tr1 ∧
        outs.length = lines.length ∧
        ∀ (i : Nat) (line : Str), lines[i]? = some line →
          ∃ o, outs[i]? = some o ∧
            LineOut line ((lines.take (i + 1)).foldl timeLeftAfter tl) o := by
  intro lines
  induction lines with
  | nil =>
    intro tl out tr
    exact ⟨[], tr, by simp [parsePMSetLoop], rfl, by simp⟩
  | cons line rest ih =>
    intro tl out tr
    have key : ∀ (o : List BatteryStatus) (tr0 : List Event),
        LineOut line (timeLeftAfter tl line) o →
        ∃ (outs : List (List BatteryStatus)) (tr1 : List Event),
          parsePMSetLoop env rest (timeLeftAfter tl line) (out ++ o) tr0
            = .ok (out ++ outs.flatten) tr1 ∧
          outs.length = (line :: rest).length ∧
          ∀ (i : Nat) (l : Str), (line :: rest)[i]? = some l →
            ∃ o1, outs[i]? = some o1 ∧
              LineOut l (((line :: rest).take (i + 1)).foldl timeLeftAfter tl) o1 := by
      intro o tr0 ho
      obtain ⟨outs, tr1, h1, h2, h3⟩ := ih (timeLeftAfter tl line) (out ++ o) tr0
      refine ⟨o :: outs, tr1, ?_, ?_, ?_⟩
      · rw [h1]; simp
      · simp [h2]
      · intro i l hl
        cases i with
        | zero =>
          simp only [List.getElem?_cons_zero, Option.some.injEq] at hl
          subst hl
          exact ⟨o, by simp, by simpa using ho⟩
        | succ i =>
          simp only [List.getElem?_cons_succ] at hl
          obtain ⟨o1, ho1, ho2⟩ := h3 i l hl
          exact ⟨o1, by simpa using ho1, by simpa using ho2⟩
    rw [parsePMSetLoop]
    by_cases hc : stringsContains line "%".toList = true
    · rcases hpl : percentLoop (stringsFields line) (stringsFields line).enum with ⟨p, found, st⟩
      cases found with
      | false =>
        have hlo : LineOut line (timeLeftAfter tl line) [] := by
          unfold LineOut lineReading
          rw [hc, hpl]
          rfl
        simp only [hc, hpl, Bool.not_true, Bool.not_false, Bool.false_eq_true, if_false, if_true]
        simpa only [List.append_nil] using key [] tr hlo
      | true =>
        obtain ⟨⟨h, c⟩, tr0, hh⟩ := getBatteryHealth_ok env hff tr
        have hlo : LineOut line (timeLeftAfter tl line) [⟨p, st, timeLeftAfter tl line, h, c⟩] := by
          unfold LineOut lineReading
          rw [hc, hpl]
          exact ⟨h, c, rfl⟩
        simp only [hc, hpl, hh, Bool.not_true, Bool.false_eq_true, if_false]
        exact key _ tr0 hlo
    · have hc1 : stringsContains line "%".toList = false := by
        cases hx : stringsContains line "%".toList
        · rfl
        · exact absurd hx hc
      have hlo : LineOut line (timeLeftAfter tl line) [] := by
        unfold LineOut lineReading
        rw [hc1]
        rfl
      simp only [hc1, Bool.not_false, if_true]
      simpa only [List.append_nil] using key [] tr hlo

theorem parsePMSetLoop_skip (env : Env) :
    ∀ (ls rest : List Str) (tl : Str) (out : List BatteryStatus) (tr : List Event),
      (∀ l ∈ ls, stringsContains l "%".toList = false) →
      parsePMSetLoop env (ls ++ rest) tl out tr
        = parsePMSetLoop env rest (ls.foldl timeLeftAfter tl) out tr := by
  intro ls
  induction ls with
  | nil => intro rest tl out tr _; rfl
  | cons l ls ih =>
    intro rest tl out tr h
    have hl : stringsContains l "%".toList = false := h l (List.mem_cons_self _ _)
    rw [List.cons_append, parsePMSetLoop]
    simp only [hl, Bool.not_false, if_true]
    exact ih rest (timeLeftAfter tl l) out tr (fun x hx => h x (List.mem_cons_of_mem _ hx))

theorem parsePMSetLoop_emit (env : Env) (hff : env.FaultFree) (line : Str) (rest : List Str)
    (tl : Str) (out : List BatteryStatus) (tr : List Event) (p : F64) (st : Str)
    (hr : lineReading line = some (p, st)) :
    ∃ h c tr0, parsePMSetLoop env (line :: rest) tl out tr
      = parsePMSetLoop env rest (timeLeftAfter tl line)
          (out ++ [⟨p, st, timeLeftAfter tl line, h, c⟩]) tr0 := by
  obtain ⟨⟨h, c⟩, tr0, hh⟩ := getBatteryHealth_ok env hff tr
  refine ⟨h, c, tr0, ?_⟩
  unfold lineReading at hr
  rw [parsePMSetLoop]
  cases hc : stringsContains line "%".toList with
  | false => rw [hc] at hr; exact absurd hr (by simp)
  | true =>
    rw [hc] at hr
    rcases hpl : percentLoop (stringsFields line) (stringsFields line).enum with ⟨p1, found, st1⟩
    rw [hpl] at hr
    cases found with
    | false => exact absurd hr (by simp)
    | true =>
      simp only [Bool.not_true, Bool.false_eq_true, if_false, Option.some.injEq,
        Prod.mk.injEq] at hr
      obtain ⟨rfl, rfl⟩ := hr
      simp only [hh, Bool.not_true, Bool.false_eq_true, if_false]
      rfl

/-- C1. In a fault-free environment `parsePMSet` returns the concatenation of
what each line contributes, and a line containing a percent sign whose first
token containing `%`, stripped of one trailing `;` and then one trailing `%`,
parses as a number `p` contributes exactly one reading, with `Percent = p` and
`Status` the next token without its trailing `;`, or `Unknown` when there is no
next token. In particular, when the only line containing `%` has first percent
token `87%` immediately followed by the token `Discharging;`, the result is
exactly one reading with `Percent = 87` and `Status = Discharging`. -/
theorem parsePMSet_percent_status (env : Env) (hff : env.FaultFree) (raw : Str)
    (tr : List Event) :
    (∃ (outs : List (List BatteryStatus)) (tr1 : List Event),
      parsePMSet env raw tr = .ok outs.flatten tr1 ∧
      outs.length = (stringsSplit '\n' raw).length ∧
      ∀ (i : Nat) (line : Str), (stringsSplit '\n' raw)[i]? = some line →
        stringsContains line "%".toList = true →
        ∀ (pre post : List Str) (tok : Str) (p : F64),
          stringsFields line = pre ++ tok :: post →
          (∀ t ∈ pre, stringsContains t "%".toList = false) →
          stringsContains tok "%".toList = true →
          parseFloat (stringsTrimSuffix (stringsTrimSuffix tok ";".toList) "%".toList)
            = (p, none) →
          ∃ b, outs[i]? = some [b] ∧ b.Percent = p ∧
            b.Status = (match post with
              | [] => "Unknown".toList
              | nxt :: _ => stringsTrimSuffix nxt ";".toList)) ∧
    (∀ (before after : List Str) (line : Str) (pre post : List Str),
      stringsSplit '\n' raw = before ++ line :: after →
      (∀ l ∈ before ++ after, stringsContains l "%".toList = false) →
      stringsContains line "%".toList = true →
      stringsFields line = pre ++ "87%".toList :: "Discharging;".toList :: post →
      (∀ t ∈ pre, stringsContains t "%".toList = false) →
      ∃ b tr1, parsePMSet env raw tr = .ok [b] tr1 ∧
        b.Percent = F64.ofInt 87 ∧ b.Status = "Discharging".toList) := by
  constructor
  · obtain ⟨outs, tr1, h1, h2, h3⟩ := parsePMSetLoop_outs env hff (stringsSplit '\n' raw) [] [] tr
    refine ⟨outs, tr1, by simpa [parsePMSet] using h1, h2, ?_⟩
    intro i line hi hline pre post tok p hf hpre htok hp
    obtain ⟨o, ho, hlo⟩ := h3 i line hi
    unfold LineOut at hlo
    rw [lineReading_found line pre post tok p hline hf hpre htok hp] at hlo
    obtain ⟨h, c, rfl⟩ := hlo
    exact ⟨_, ho, rfl, rfl⟩
  · intro before after line pre post hsplit hothers hline hf hpre
    have hb : ∀ l ∈ before, stringsContains l "%".toList = false :=
      fun l hl => hothers l (List.mem_append_left _ hl)
    have ha : ∀ l ∈ after, stringsContains l "%".toList = false :=
      fun l hl => hothers l (List.mem_append_right _ hl)
    have hr : lineReading line = some (F64.ofInt 87, "Discharging".toList) :=
      lineReading_found line pre ("Discharging;".toList :: post) "87%".toList (F64.ofInt 87)
        hline hf hpre (by decide) (by decide)
    obtain ⟨h, c, tr0, he⟩ := parsePMSetLoop_emit env hff line after
      (before.foldl timeLeftAfter []) [] tr _ _ hr
    refine ⟨⟨F64.ofInt 87, "Discharging".toList,
      timeLeftAfter (before.foldl timeLeftAfter []) line, h, c⟩, tr0, ?_, rfl, rfl⟩
    have hskip := parsePMSetLoop_skip env after [] (timeLeftAfter (before.foldl timeLeftAfter []) line)
      ([] ++ [⟨F64.ofInt 87, "Discharging".toList,
        timeLeftAfter (before.foldl timeLeftAfter []) line, h, c⟩]) tr0 ha
    rw [List.append_nil] at hskip
    rw [parsePMSet, hsplit, parsePMSetLoop_skip env before _ [] [] tr hb, he, hskip]
    rfl

/-! ## Fields are pieces of the line -/

theorem stringsContains_of_infix : ∀ (s f : Str), f <:+: s → stringsContains s f = true := by
  intro s
  induction s with
  | nil =>
    intro f hf
    have : f = [] := List.eq_nil_of_infix_nil hf
    subst this
    rfl
  | cons c cs ih =>
    intro f hf
    rw [stringsContains]
    rcases List.infix_cons_iff.mp hf with h | h
    · have : f.isPrefixOf (c :: cs) = true := List.isPrefixOf_iff_prefix.mpr h
      rw [this]; rfl
    · rw [ih f h]; simp

theorem fieldsGo_mem : ∀ (s cur f : Str), f ∈ fieldsGo s cur →
    (∃ p q, s = p ++ q ∧ f = cur ++ p) ∨ f <:+: s := by
  intro s
  induction s with
  | nil =>
    intro cur f hf
    rw [fieldsGo] at hf
    split at hf
    · simp at hf
    · simp only [List.mem_singleton] at hf
      exact Or.inl ⟨[], [], rfl, by simp [hf]⟩
  | cons c cs ih =>
    intro cur f hf
    have tail : ∀ g, g ∈ fieldsGo cs [] → g <:+: c :: cs := by
      intro g hg
      rcases ih [] g hg with ⟨p, q, hs, hg1⟩ | h
      · refine ⟨[c], q, ?_⟩
        simp [hs, hg1]
      · exact List.infix_cons h
    rw [fieldsGo] at hf
    split at hf
    · split at hf
      · exact Or.inr (tail f hf)
      · rcases List.mem_cons.mp hf with h | h
        · exact Or.inl ⟨[], c :: cs, rfl, by simp [h]⟩
        · exact Or.inr (tail f h)
    · rcases ih (cur ++ [c]) f hf with ⟨p, q, hs, hf1⟩ | h
      · exact Or.inl ⟨c :: p, q, by simp [hs], by simp [hf1]⟩
      · exact Or.inr (List.infix_cons h)

theorem stringsContains_field (line f : Str) (hf : f ∈ stringsFields line) :
    stringsContains line f = true := by
  apply stringsContains_of_infix
  rcases fieldsGo_mem line [] f hf with ⟨p, q, hs, hf1⟩ | h
  · refine ⟨[], q, ?_⟩
    simp [hs, hf1]
  · exact h

/-! ## The `remaining` loop -/

theorem remainingLoop_append (parts : List Str) :
    ∀ (l1 l2 : List (Nat × Str)) (tl : Str),
      remainingLoop parts (l1 ++ l2) tl = remainingLoop parts l2 (remainingLoop parts l1 tl) := by
  intro l1
  induction l1 with
  | nil => intro l2 tl; rfl
  | cons a l1 ih =>
    intro l2 tl
    obtain ⟨i, p⟩ := a
    rw [List.cons_append, remainingLoop, remainingLoop]
    split
    · exact ih l2 _
    · exact ih l2 _

theorem remainingLoop_unchanged (parts : List Str) :
    ∀ (l : List Str) (k : Nat) (tl : Str),
      (∀ (j : Nat), l[j]? = some "remaining".toList → k + j = 0) →
      remainingLoop parts (List.enumFrom k l) tl = tl := by
  intro l
  induction l with
  | nil => intro k tl _; rfl
  | cons a l ih =>
    intro k tl h
    rw [List.enumFrom_cons, remainingLoop]
    have hrest : ∀ (j : Nat), l[j]? = some "remaining".toList → k + 1 + j = 0 := by
      intro j hj
      have := h (j + 1) (by simpa using hj)
      omega
    split
    · rename_i hc
      have := h 0 (by simp [hc.1])
      omega
    · exact ih (k + 1) tl hrest

theorem timeLeftAfter_of_not_hasRemaining (tl line : Str) (h : ¬ HasRemaining line) :
    timeLeftAfter tl line = tl := by
  unfold timeLeftAfter
  split
  · rw [List.enum]
    apply remainingLoop_unchanged
    intro j hj
    cases j with
    | zero => rfl
    | succ j =>
      exfalso
      apply h
      unfold HasRemaining
      cases hl : stringsFields line with
      | nil => rw [hl] at hj; simp at hj
      | cons a l =>
        rw [hl, List.getElem?_cons_succ] at hj
        exact List.getElem?_mem hj
  · rfl

theorem timeLeftAfter_of_last (tl line : Str) (pre post : List Str) (t : Str)
    (hf : stringsFields line = pre ++ t :: "remaining".toList :: post)
    (hpost : "remaining".toList ∉ post) :
    timeLeftAfter tl line = t := by
  have hmem : "remaining".toList ∈ stringsFields line := by
    rw [hf]; simp
  unfold timeLeftAfter
  rw [stringsContains_field line _ hmem, if_pos rfl, hf]
  have hsplit : pre ++ t :: "remaining".toList :: post
      = (pre ++ [t]) ++ "remaining".toList :: post := by simp
  have henum : (pre ++ t :: "remaining".toList :: post).enum
      = List.enumFrom 0 (pre ++ [t])
        ++ ((pre.length + 1, "remaining".toList) :: List.enumFrom (pre.length + 2) post) := by
    rw [List.enum, hsplit, List.enumFrom_append, List.enumFrom_cons]
    simp
  rw [henum, remainingLoop_append, remainingLoop]
  have hget : ∀ (l rest : List Str),
      (l ++ t :: rest).getD (l.length + 1 - 1) [] = t := by
    intro l rest
    induction l with
    | nil => rfl
    | cons a l ih => simpa using ih
  rw [if_pos ⟨rfl, Nat.succ_pos _⟩, hget]
  apply remainingLoop_unchanged
  intro j hj
  exact absurd (List.getElem?_mem hj) hpost

theorem foldl_timeLeftAfter_unchanged :
    ∀ (ls : List Str) (tl : Str), (∀ l ∈ ls, ¬ HasRemaining l) →
      ls.foldl timeLeftAfter tl = tl := by
  intro ls
  induction ls with
  | nil => intro tl _; rfl
  | cons l ls ih =>
    intro tl h
    rw [List.foldl_cons, timeLeftAfter_of_not_hasRemaining tl l (h l (List.mem_cons_self _ _))]
    exact ih tl (fun x hx => h x (List.mem_cons_of_mem _ hx))

/-- C2, amended. In a fault-free environment `parsePMSet` returns the
concatenation of what each line contributes, where line number `i` contributes
`outs[i]`: nothing when the line is skipped, and otherwise exactly one reading,
with the percent and status read on that line. The `TimeLeft` of that reading
is the token immediately preceding the last token `remaining` of the last line,
at or before the reading's own line, on which some token other than the first
is `remaining`; it is empty when no line at or before the reading's own line
has such a token. -/
theorem parsePMSet_timeLeft (env : Env) (hff : env.FaultFree) (raw : Str) (tr : List Event) :
    ∃ (outs : List (List BatteryStatus)) (tr1 : List Event),
      parsePMSet env raw tr = .ok outs.flatten tr1 ∧
      outs.length = (stringsSplit '\n' raw).length ∧
      ∀ (i : Nat) (own : Str), (stringsSplit '\n' raw)[i]? = some own →
        ∃ o : List BatteryStatus, outs[i]? = some o ∧
          (lineReading own = none → o = []) ∧
          (∀ (p : F64) (st : Str), lineReading own = some (p, st) →
            ∃ b, o = [b] ∧ b.Percent = p ∧ b.Status = st) ∧
          ∀ b ∈ o,
            (∀ (before after : List Str) (line : Str) (pre post : List Str) (t : Str),
              (stringsSplit '\n' raw).take (i + 1) = before ++ line :: after →
              stringsFields line = pre ++ t :: "remaining".toList :: post →
              "remaining".toList ∉ post →
              (∀ l ∈ after, ¬ HasRemaining l) →
              b.TimeLeft = t) ∧
            ((∀ l ∈ (stringsSplit '\n' raw).take (i + 1), ¬ HasRemaining l) →
              b.TimeLeft = []) := by
  obtain ⟨outs, tr1, h1, h2, h3⟩ :=
    parsePMSetLoop_outs env hff (stringsSplit '\n' raw) [] [] tr
  refine ⟨outs, tr1, by simpa [parsePMSet] using h1, h2, ?_⟩
  intro i own hown
  obtain ⟨o, ho, hlo⟩ := h3 i own hown
  refine ⟨o, ho, ?_, ?_, ?_⟩
  · intro hnone
    unfold LineOut at hlo
    rw [hnone] at hlo
    exact hlo
  · intro p st hsome
    unfold LineOut at hlo
    rw [hsome] at hlo
    obtain ⟨h, c, rfl⟩ := hlo
    exact ⟨_, rfl, rfl, rfl⟩
  · intro b hb
    have htl : b.TimeLeft
        = ((stringsSplit '\n' raw).take (i + 1)).foldl timeLeftAfter [] := by
      unfold LineOut at hlo
      split at hlo
      · rw [hlo] at hb; simp at hb
      · obtain ⟨h, c, rfl⟩ := hlo
        simp only [List.mem_singleton] at hb
        rw [hb]
    constructor
    · intro before after line pre post t htake hf hpost hafter
      rw [htl, htake, List.foldl_append, List.foldl_cons,
        timeLeftAfter_of_last _ line pre post t hf hpost]
      exact foldl_timeLeftAfter_unchanged after t hafter
    · intro hnone
      rw [htl]
      exact foldl_timeLeftAfter_unchanged _ [] hnone

/-- C1, at a concrete input: the report of a machine on battery, whose second
line carries the tokens `87%` and `Discharging;`. -/
theorem parsePMSet_percent_status_witness :
    envMac.FaultFree ∧
    ∃ b tr1,
      parsePMSet envMac
        "Now drawing from Battery Power\n -InternalBattery-0 (id=1)\t87% Discharging; 1:45 remaining".toList
        [] = .ok [b] tr1 ∧
      b.Percent = F64.ofInt 87 ∧ b.Status = "Discharging".toList :=
  ⟨fun _ => rfl,
    (parsePMSet_percent_status envMac (fun _ => rfl)
      "Now drawing from Battery Power\n -InternalBattery-0 (id=1)\t87% Discharging; 1:45 remaining".toList
      []).2
      ["Now drawing from Battery Power".toList] []
      " -InternalBattery-0 (id=1)\t87% Discharging; 1:45 remaining".toList
      ["-InternalBattery-0".toList, "(id=1)".toList] ["1:45".toList, "remaining".toList]
      (by decide) (by decide) (by decide) (by decide) (by decide)⟩

/-- C2 as stated fails: on the input `1:45 remaining` / `remaining 87%` the one
reading is emitted for the second line, which contains the word `remaining`,
yet its `TimeLeft` is `1:45`, which is not a token of that line at all (it comes
from the first line). -/
theorem parsePMSet_timeLeft_counterexample :
    ∃ b tr1,
      parsePMSet envLinux "1:45 remaining\nremaining 87%".toList [] = .ok [b] tr1 ∧
      (stringsSplit '\n' "1:45 remaining\nremaining 87%".toList)[1]?
        = some "remaining 87%".toList ∧
      "remaining".toList ∈ stringsFields "remaining 87%".toList ∧
      lineReading "remaining 87%".toList = some (b.Percent, b.Status) ∧
      b.TimeLeft = "1:45".toList ∧
      "1:45".toList ∉ stringsFields "remaining 87%".toList :=
  ⟨⟨F64.ofInt 87, "Unknown".toList, "1:45".toList, [], 0⟩, [],
    by decide, by decide, by decide, by decide, rfl, by decide⟩

/-- C2, amended, at a concrete input: a percent line, then a line
`1:45 remaining`, then another percent line. The first reading has an empty
`TimeLeft`, the second has `1:45`. -/
theorem parsePMSet_timeLeft_witness :
    envMac.FaultFree ∧
    ∃ (b0 b1 : BatteryStatus) (tr1 : List Event),
      parsePMSet envMac "50% a\n1:45 remaining\n60% b".toList [] = .ok [b0, b1] tr1 ∧
      b0.TimeLeft = [] ∧ b1.TimeLeft = "1:45".toList := by
  refine ⟨fun _ => rfl, ?_⟩
  obtain ⟨outs, tr1, h1, h2, h3⟩ := parsePMSet_timeLeft envMac (fun _ => rfl)
    "50% a\n1:45 remaining\n60% b".toList []
  have hlines : stringsSplit '\n' "50% a\n1:45 remaining\n60% b".toList
      = ["50% a".toList, "1:45 remaining".toList, "60% b".toList] := by decide
  rw [hlines] at h2 h3
  obtain ⟨o0, ho0, _, hs0, ht0⟩ := h3 0 "50% a".toList rfl
  obtain ⟨o1, ho1, hn1, _, _⟩ := h3 1 "1:45 remaining".toList rfl
  obtain ⟨o2, ho2, _, hs2, ht2⟩ := h3 2 "60% b".toList rfl
  obtain ⟨b0, hb0, _, _⟩ := hs0 (F64.ofInt 50) "a".toList (by decide)
  obtain ⟨b1, hb1, _, _⟩ := hs2 (F64.ofInt 60) "b".toList (by decide)
  have hn := hn1 (by decide)
  subst hb0 hb1 hn
  have houts : outs = [[b0], [], [b1]] := by
    match outs, h2, ho0, ho1, ho2 with
    | [x0, x1, x2], _, e0, e1, e2 =>
      simp only [List.getElem?_cons_zero, List.getElem?_cons_succ, Option.some.injEq]
        at e0 e1 e2
      rw [e0, e1, e2]
  rw [houts] at h1
  refine ⟨b0, b1, tr1, h1, ?_, ?_⟩
  · exact (ht0 b0 (List.mem_singleton.mpr rfl)).2 (by decide)
  · exact (ht2 b1 (List.mem_singleton.mpr rfl)).1
      ["50% a".toList] ["60% b".toList] "1:45 remaining".toList [] [] "1:45".toList
      (by decide) (by decide) (by decide) (by decide)

/-! ## `collectThermal` -/

/-- C3. On darwin, when `osx-cpu-temp` is resolvable and its run succeeds with
an output that, trimmed of white space and of a trailing `°C` / `C`, parses as a
number `t > 0`, `collectThermal` returns `CPUTemp = t`, whatever the other
probes would answer (they may even fault), and its only interactions are the
power report, the lookup of `osx-cpu-temp` and its run: neither `powermetrics`
nor `sysctl` is looked up or run. -/
theorem collectThermal_osx_cpu_temp_first (env : Env) (tr : List Event) (out1 : Str) (t : F64)
    (hos : env.goos = "darwin".toList)
    (hff : ∀ k, k < 3 → env.fault (tr.length + k) = none)
    (hex : env.commandExists "osx-cpu-temp".toList = true)
    (hrun : env.runCmd (tr.length + 2) (some 500) "osx-cpu-temp".toList [] = (out1, none))
    (hparse : parseFloat (stringsTrimSpace (stringsTrimSuffix
      (stringsTrimSuffix (stringsTrimSpace out1) "°C".toList) "C".toList)) = (t, none))
    (hpos : F64.gt t F64.zero = true) :
    ∃ fan, collectThermal env tr = .ok ⟨t, fan⟩
      (tr ++ [Event.run (some 2000) "system_profiler".toList ["SPPowerDataType".toList],
        Event.lookPath "osx-cpu-temp".toList,
        Event.run (some 500) "osx-cpu-temp".toList []]) := by
  have h0 : env.fault tr.length = none := by simpa using hff 0 (by omega)
  have h1 : env.fault (tr.length + 1) = none := hff 1 (by omega)
  have h2 : env.fault (tr.length + 2) = none := hff 2 (by omega)
  unfold collectThermal
  rw [if_neg (by rw [hos]; exact fun h => h rfl), runCmd_at env _ _ _ tr h0]
  rcases env.runCmd tr.length (some 2000) "system_profiler".toList ["SPPowerDataType".toList]
    with ⟨out, err⟩
  dsimp only
  rw [commandExists_at env _ _ (by simpa using h1), hex]
  dsimp only
  have hlen : (tr ++ [Event.run (some 2000) "system_profiler".toList ["SPPowerDataType".toList]]
      ++ [Event.lookPath "osx-cpu-temp".toList]).length = tr.length + 2 := by simp
  rw [runCmd_at env _ _ _ _ (by rw [hlen]; exact h2), hlen, hrun]
  simp only [osxTempText, hparse, hpos, Option.isSome_none, Bool.false_eq_true, if_false, if_true]
  refine ⟨if err.isSome = true then 0 else fanScan (stringsSplit '\n' out) 0, ?_⟩
  rw [List.append_assoc, List.append_assoc]
  rfl

/-- C3 at a concrete input: `osx-cpu-temp` prints `42.1°C`, and every
interaction after its run would fault. -/
theorem collectThermal_osx_cpu_temp_first_witness :
    ∃ fan, collectThermal envOsxTemp [] = .ok ⟨F64.ofRatio false 421 10, fan⟩
      ([] ++ [Event.run (some 2000) "system_profiler".toList ["SPPowerDataType".toList],
        Event.lookPath "osx-cpu-temp".toList,
        Event.run (some 500) "osx-cpu-temp".toList []]) :=
  collectThermal_osx_cpu_temp_first envOsxTemp [] "42.1°C\n".toList (F64.ofRatio false 421 10)
    rfl (by decide) rfl rfl (by decide) (by decide)

/-- C4 fails on the code: when the thermal-level `sysctl` succeeds with an
output that is not an integer (`Atoi` reports a syntax error), no sub-probe has
produced a usable number, yet `collectThermal` returns `CPUTemp = 45`, not 0. -/
theorem collectThermal_level_not_integer :
    (atoi (stringsTrimSpace "n/a\n".toList)).2 = some NumError.errSyntax ∧
    collectThermal envNoLevel [] = .ok ⟨F64.ofInt 45, 0⟩
      [Event.run (some 2000) "system_profiler".toList ["SPPowerDataType".toList],
        Event.lookPath "osx-cpu-temp".toList,
        Event.lookPath "powermetrics".toList,
        Event.run (some 500) "sysctl".toList
          ["-n".toList, "machdep.xcpm.cpu_thermal_level".toList]] ∧
    F64.ofInt 45 ≠ F64.zero := by
  refine ⟨by decide, by decide, by decide⟩

/-! ## `collectSensors` -/

/-- C5 fails on the code: a raw reading whose temperature is NaN passes both
comparisons of the filter and is emitted, although `0 < NaN` does not hold. -/
theorem collectSensors_emits_nan :
    collectSensors ([⟨"TC0P".toList, F64.nan, F64.zero, F64.zero⟩], none)
      = ([⟨"0P".toList, F64.nan, "°C".toList⟩], none) ∧
    F64.lt F64.zero F64.nan = false ∧ F64.le F64.nan (F64.ofInt 150) = false := by
  refine ⟨by decide, by decide, by decide⟩

theorem sensorsLoop_eq (temps : List TemperatureStat) :
    ∀ out : List SensorReading,
      sensorsLoop temps out = out ++
        (temps.filter (fun t =>
          !(F64.le t.Temperature F64.zero) && !(F64.gt t.Temperature (F64.ofInt 150)))).map
          (fun t => ⟨prettifyLabel t.SensorKey, t.Temperature, "°C".toList⟩) := by
  induction temps with
  | nil => intro out; simp [sensorsLoop]
  | cons t rest ih =>
    intro out
    rw [sensorsLoop, List.filter_cons]
    cases h1 : F64.le t.Temperature F64.zero <;>
      cases h2 : F64.gt t.Temperature (F64.ofInt 150) <;>
      simp [ih]

/-- C6. `collectSensors` equals the reference definition on every facility
result: a facility error is returned as it is, with no readings; otherwise the
readings whose temperature is neither `<= 0` nor `> 150` are kept in order, value
unchanged, with the prettified label and the unit `°C`. So readings of value 0
and 151 are dropped and a reading of 36.5 is kept as 36.5. -/
theorem collectSensors_eq_ref :
    (∀ facility : List TemperatureStat × Option Str,
      collectSensors facility = collectSensorsRef facility) ∧
    (∀ (temps : List TemperatureStat) (e : Str), collectSensors (temps, some e) = ([], some e)) ∧
    collectSensors
        ([⟨"TC0P".toList, F64.ofInt 0, F64.zero, F64.zero⟩,
          ⟨"TC1P".toList, F64.ofInt 151, F64.zero, F64.zero⟩,
          ⟨"TCXC_PROC".toList, F64.ofRatio false 73 2, F64.zero, F64.zero⟩], none)
      = ([⟨"XC PROC".toList, F64.ofRatio false 73 2, "°C".toList⟩], none) := by
  refine ⟨?_, fun _ _ => rfl, by decide⟩
  rintro ⟨temps, err⟩
  cases err with
  | some e => rfl
  | none =>
    unfold collectSensors collectSensorsRef
    simp only [sensorsLoop_eq, List.nil_append]

/-! ## `collectBatteries` -/

theorem osReadFile_at (env : Env) (path : Str) (tr : List Event)
    (h : env.fault tr.length = none) :
    osReadFile env path tr = .ok (env.readFile path) (tr ++ [.readFile path]) := by
  unfold osReadFile interact
  rw [h]

theorem sysfsLoop_eq (env : Env) (hff : env.FaultFree) :
    ∀ (matched : List Str) (batts : List BatteryStatus) (tr : List Event),
      ∃ tr1, sysfsLoop env matched batts tr
        = (batts ++ matched.filterMap (sysfsReadingRef env.readFile), .ok () tr1) := by
  intro matched
  induction matched with
  | nil => intro batts tr; exact ⟨tr, by simp [sysfsLoop]⟩
  | cons capFile rest ih =>
    intro batts tr
    rw [sysfsLoop, osReadFile_at env _ _ (hff _)]
    rcases hcap : env.readFile capFile with ⟨capData, err⟩
    cases err with
    | some e =>
      obtain ⟨tr1, h1⟩ := ih batts (tr ++ [.readFile capFile])
      refine ⟨tr1, ?_⟩
      simp only [Option.isSome_some, if_true]
      rw [h1, List.filterMap_cons]
      unfold sysfsReadingRef
      rw [hcap]
      simp
    | none =>
      simp only [Option.isSome_none, Bool.false_eq_true, if_false]
      rw [osReadFile_at env _ _ (hff _)]
      rcases hst : env.readFile (filepathJoin (filepathDir capFile) "status".toList)
        with ⟨statusData, serr⟩
      dsimp only
      obtain ⟨tr1, h1⟩ := ih
        (batts ++ [⟨(parseFloat (stringsTrimSpace capData)).1,
          if stringsTrimSpace statusData = [] then "Unknown".toList
          else stringsTrimSpace statusData, [], [], 0⟩])
        (tr ++ [.readFile capFile]
          ++ [.readFile (filepathJoin (filepathDir capFile) "status".toList)])
      refine ⟨tr1, ?_⟩
      rw [h1, List.filterMap_cons]
      unfold sysfsReadingRef
      rw [hcap, hst]
      simp

theorem collectBatteriesSysfs_eq (env : Env) (hff : env.FaultFree) (tr : List Event) :
    ∃ tr1, collectBatteriesSysfs env tr
      = ((if sysfsReadingsRef env.glob env.readFile = [] then
            ([], some "no battery data found".toList)
          else (sysfsReadingsRef env.glob env.readFile, none)), tr1) := by
  unfold collectBatteriesSysfs filepathGlob
  rw [interact_ok env hff]
  dsimp only
  obtain ⟨tr1, h1⟩ := sysfsLoop_eq env hff
    (env.glob "/sys/class/power_supply/BAT*/capacity".toList) []
    (tr ++ [.glob "/sys/class/power_supply/BAT*/capacity".toList])
  rw [h1, List.nil_append]
  dsimp only
  refine ⟨tr1, ?_⟩
  unfold sysfsReadingsRef
  cases hr : (env.glob "/sys/class/power_supply/BAT*/capacity".toList).filterMap
    (sysfsReadingRef env.readFile) with
  | nil => simp
  | cons b bs => simp

theorem getBatteryHealth_trace (env : Env) (tr : List Event) :
    ∃ evs, (getBatteryHealth env tr).trace = tr ++ evs ∧ ∀ ev ∈ evs, ev.isSysfs = false := by
  unfold getBatteryHealth
  split
  · exact ⟨[], by simp [Res.trace], by simp⟩
  · refine ⟨[Event.run (some 2000) "system_profiler".toList ["SPPowerDataType".toList]], ?_, ?_⟩
    · unfold runCmd interact
      cases env.fault tr.length with
      | some r => rfl
      | none =>
        dsimp only
        split <;> rfl
    · intro ev hev
      rw [List.mem_singleton] at hev
      rw [hev]
      rfl

theorem parsePMSetLoop_trace (env : Env) :
    ∀ (lines : List Str) (tl : Str) (out : List BatteryStatus) (tr : List Event),
      ∃ evs, (parsePMSetLoop env lines tl out tr).trace = tr ++ evs ∧
        ∀ ev ∈ evs, ev.isSysfs = false := by
  intro lines
  induction lines with
  | nil => intro tl out tr; exact ⟨[], by simp [parsePMSetLoop, Res.trace], by simp⟩
  | cons line rest ih =>
    intro tl out tr
    rw [parsePMSetLoop]
    dsimp only
    split
    · exact ih _ _ _
    · split
      · exact ih _ _ _
      · obtain ⟨evs0, h0, h0s⟩ := getBatteryHealth_trace env tr
        cases hh : getBatteryHealth env tr with
        | panic r tr1 =>
          rw [hh] at h0
          exact ⟨evs0, h0, h0s⟩
        | ok hc tr1 =>
          rw [hh] at h0
          obtain ⟨h, c⟩ := hc
          dsimp only
          obtain ⟨evs1, h1, h1s⟩ := ih
            (if stringsContains line "remaining".toList = true then
              remainingLoop (stringsFields line) (stringsFields line).enum tl
            else tl)
            (out ++ [⟨(percentLoop (stringsFields line) (stringsFields line).enum).1,
              (percentLoop (stringsFields line) (stringsFields line).enum).2.2,
              if stringsContains line "remaining".toList = true then
                remainingLoop (stringsFields line) (stringsFields line).enum tl
              else tl, h, c⟩]) tr1
          have h0t : tr1 = tr ++ evs0 := h0
          refine ⟨evs0 ++ evs1, ?_, ?_⟩
          · rw [h1, h0t, List.append_assoc]
          · intro ev hev
            rcases List.mem_append.mp hev with h | h
            · exact h0s ev h
            · exact h1s ev h

theorem parsePMSet_ok (env : Env) (hff : env.FaultFree) (raw : Str) (tr : List Event) :
    ∃ batts tr1, parsePMSet env raw tr = .ok batts tr1 := by
  obtain ⟨outs, tr1, h1, _, _⟩ := parsePMSetLoop_outs env hff (stringsSplit '\n' raw) [] [] tr
  exact ⟨_, tr1, h1⟩

theorem collectBatteries_cases (env : Env) (hff : env.FaultFree) (tr : List Event) :
    (∃ batts tr3, PmsetYields env tr batts tr3 ∧
      collectBatteries env tr = ((batts, none), tr3)) ∨
    ((¬ ∃ batts tr3, PmsetYields env tr batts tr3) ∧
      ∃ tr1, collectBatteries env tr
        = ((if sysfsReadingsRef env.glob env.readFile = [] then
              ([], some "no battery data found".toList)
            else (sysfsReadingsRef env.glob env.readFile, none)), tr1)) := by
  unfold collectBatteries
  by_cases hos : env.goos = "darwin".toList
  · rw [if_pos hos, commandExists_at env _ _ (hff _)]
    cases hex : env.commandExists "pmset".toList with
    | false =>
      dsimp only
      refine Or.inr ⟨?_, collectBatteriesSysfs_eq env hff _⟩
      rintro ⟨b, t3, _, h, _⟩
      rw [hex] at h
      cases h
    | true =>
      dsimp only
      have hlen : (tr ++ [Event.lookPath "pmset".toList]).length = tr.length + 1 := by simp
      rw [runCmd_at env _ _ _ _ (hff _), hlen]
      rcases hrun : env.runCmd (tr.length + 1) none "pmset".toList ["-g".toList, "batt".toList]
        with ⟨o, err⟩
      cases err with
      | some e =>
        simp only [Option.isSome_some, if_true]
        refine Or.inr ⟨?_, collectBatteriesSysfs_eq env hff _⟩
        rintro ⟨b, t3, _, _, o1, h, _⟩
        rw [hrun] at h
        cases h
      | none =>
        simp only [Option.isSome_none, Bool.false_eq_true, if_false]
        have hassoc : tr ++ [Event.lookPath "pmset".toList]
            ++ [Event.run none "pmset".toList ["-g".toList, "batt".toList]]
            = tr ++ [Event.lookPath "pmset".toList,
                Event.run none "pmset".toList ["-g".toList, "batt".toList]] := by simp
        rw [hassoc]
        obtain ⟨batts, tr3, hp⟩ := parsePMSet_ok env hff o
          (tr ++ [Event.lookPath "pmset".toList,
            Event.run none "pmset".toList ["-g".toList, "batt".toList]])
        rw [hp]
        cases batts with
        | nil =>
          simp only [List.length_nil, Nat.lt_irrefl, if_false]
          refine Or.inr ⟨?_, collectBatteriesSysfs_eq env hff _⟩
          rintro ⟨b, t3, _, _, o1, h, hp1, hne⟩
          rw [hrun] at h
          cases h
          rw [hp] at hp1
          cases hp1
          exact hne rfl
        | cons b bs =>
          simp only [List.length_cons, Nat.succ_pos, if_true]
          exact Or.inl ⟨b :: bs, tr3, ⟨hos, hex, o, hrun, hp, by simp⟩, rfl⟩
  · rw [if_neg hos]
    refine Or.inr ⟨?_, collectBatteriesSysfs_eq env hff _⟩
    rintro ⟨b, t3, h, _⟩
    exact hos h

/-- C7. In a fault-free environment: when the platform is darwin, `pmset` is
resolvable, its run succeeds with output `o` and `parsePMSet o` is non-empty,
`collectBatteries` returns exactly `parsePMSet o` with no error, and none of its
interactions is a glob or a file read; in every other case the returned value is
a function of the glob and of the file contents alone (the sysfs readings, or
the `no battery data found` error when there are none). -/
theorem collectBatteries_first_success (env : Env) (hff : env.FaultFree) (tr : List Event) :
    (∀ (o : Str) (batts : List BatteryStatus) (tr3 : List Event),
      env.goos = "darwin".toList →
      env.commandExists "pmset".toList = true →
      env.runCmd (tr.length + 1) none "pmset".toList ["-g".toList, "batt".toList] = (o, none) →
      parsePMSet env o
        (tr ++ [Event.lookPath "pmset".toList,
          Event.run none "pmset".toList ["-g".toList, "batt".toList]]) = .ok batts tr3 →
      batts ≠ [] →
      collectBatteries env tr = ((batts, none), tr3) ∧
      ∃ evs, tr3 = tr ++ evs ∧ ∀ ev ∈ evs, ev.isSysfs = false) ∧
    ((¬ ∃ batts tr3, PmsetYields env tr batts tr3) →
      (collectBatteries env tr).1
        = if sysfsReadingsRef env.glob env.readFile = [] then
            ([], some "no battery data found".toList)
          else (sysfsReadingsRef env.glob env.readFile, none)) := by
  constructor
  · intro o batts tr3 hos hex hrun hp hne
    have hy : PmsetYields env tr batts tr3 := ⟨hos, hex, o, hrun, hp, hne⟩
    rcases collectBatteries_cases env hff tr with ⟨b, t3, ⟨_, _, o1, hrun1, hp1, _⟩, hres⟩ | ⟨hno, _⟩
    · rw [hrun] at hrun1
      cases hrun1
      rw [hp] at hp1
      cases hp1
      refine ⟨hres, ?_⟩
      obtain ⟨evs, he, hs⟩ := parsePMSetLoop_trace env (stringsSplit '\n' o) [] []
        (tr ++ [Event.lookPath "pmset".toList,
          Event.run none "pmset".toList ["-g".toList, "batt".toList]])
      have hp2 : parsePMSetLoop env (stringsSplit '\n' o) [] []
          (tr ++ [Event.lookPath "pmset".toList,
            Event.run none "pmset".toList ["-g".toList, "batt".toList]]) = .ok batts tr3 := hp
      rw [hp2] at he
      refine ⟨[Event.lookPath "pmset".toList,
        Event.run none "pmset".toList ["-g".toList, "batt".toList]] ++ evs, ?_, ?_⟩
      · rw [← List.append_assoc]; exact he
      · intro ev hev
        rcases List.mem_append.mp hev with h | h
        · rcases List.mem_cons.mp h with h | h
          · rw [h]; rfl
          · rw [List.mem_singleton] at h
            rw [h]; rfl
        · exact hs ev h
    · exact absurd ⟨batts, tr3, hy⟩ hno
  · intro hno
    rcases collectBatteries_cases env hff tr with ⟨b, t3, hy, _⟩ | ⟨_, tr1, hres⟩
    · exact absurd ⟨b, t3, hy⟩ hno
    · rw [hres]

/-- C7 at a concrete input: a macOS machine whose `pmset` reports one battery. -/
theorem collectBatteries_first_success_witness :
    envMac.FaultFree ∧
    collectBatteries envMac []
      = (([⟨F64.ofInt 87, "discharging".toList, "1:45".toList, "Normal".toList, 123⟩], none),
          [Event.lookPath "pmset".toList,
            Event.run none "pmset".toList ["-g".toList, "batt".toList],
            Event.run (some 2000) "system_profiler".toList ["SPPowerDataType".toList]]) :=
  ⟨fun _ => rfl,
    ((collectBatteries_first_success envMac (fun _ => rfl) []).1
      "Now drawing from Battery Power\n -InternalBattery-0 (id=1)\t87%; discharging; 1:45 remaining present: true\n".toList
      [⟨F64.ofInt 87, "discharging".toList, "1:45".toList, "Normal".toList, 123⟩]
      [Event.lookPath "pmset".toList,
        Event.run none "pmset".toList ["-g".toList, "batt".toList],
        Event.run (some 2000) "system_profiler".toList ["SPPowerDataType".toList]]
      rfl rfl rfl (by decide) (by decide)).1⟩

/-- C8. In a fault-free environment `collectBatteries` returns no readings and
the error `no battery data found` exactly when neither the pmset source nor the
sysfs source yields a reading; a result without error is never empty, and a
result with an error carries no readings. -/
theorem collectBatteries_no_data_iff (env : Env) (hff : env.FaultFree) (tr : List Event) :
    ((collectBatteries env tr).1 = ([], some "no battery data found".toList) ↔
      (¬ ∃ batts tr3, PmsetYields env tr batts tr3) ∧
        sysfsReadingsRef env.glob env.readFile = []) ∧
    ((collectBatteries env tr).1.2 = none → (collectBatteries env tr).1.1 ≠ []) ∧
    ((collectBatteries env tr).1.2 ≠ none → (collectBatteries env tr).1.1 = []) := by
  rcases collectBatteries_cases env hff tr with ⟨b, t3, hy, hres⟩ | ⟨hno, tr1, hres⟩
  · have hne : b ≠ [] := hy.2.2.choose_spec.2.2
    rw [hres]
    refine ⟨⟨?_, ?_⟩, fun _ => hne, fun h => absurd rfl h⟩
    · intro h
      have h2 := congrArg Prod.snd h
      cases h2
    · rintro ⟨h, _⟩
      exact absurd ⟨b, t3, hy⟩ h
  · rw [hres]
    by_cases hs : sysfsReadingsRef env.glob env.readFile = []
    · rw [if_pos hs]
      exact ⟨⟨fun _ => ⟨hno, hs⟩, fun _ => rfl⟩, fun h => (by cases h), fun _ => rfl⟩
    · rw [if_neg hs]
      refine ⟨⟨?_, ?_⟩, fun _ => hs, fun h => absurd rfl h⟩
      · intro h
        have h2 := congrArg Prod.snd h
        cases h2
      · rintro ⟨_, h⟩
        exact absurd h hs

/-- C8 at a concrete input: a Linux machine without a battery. -/
theorem collectBatteries_no_data_iff_witness :
    envLinux.FaultFree ∧
    (collectBatteries envLinux []).1 = ([], some "no battery data found".toList) :=
  ⟨fun _ => rfl,
    (collectBatteries_no_data_iff envLinux (fun _ => rfl) []).1.mpr
      ⟨fun ⟨_, _, h, _⟩ => absurd h (by decide), by decide⟩⟩

theorem parseFloat_syntax_zero (s : Str) (h : (parseFloat s).2 = some NumError.errSyntax) :
    (parseFloat s).1 = F64.zero := by
  unfold parseFloat at h ⊢
  cases hs : special s with
  | some v => rw [hs] at h; cases h
  | none =>
    rw [hs] at h
    dsimp only at h ⊢
    cases hr : readFloat s with
    | none => rfl
    | some p =>
      rw [hr] at h
      dsimp only at h ⊢
      by_cases h1 : p.rest ≠ []
      · rw [if_pos h1]
      · rw [if_neg h1] at h ⊢
        by_cases h2 : (p.underscores && !underscoreOK s) = true
        · rw [if_pos h2]
        · rw [if_neg h2] at h
          split at h <;> cases h

/-- C9 as stated fails: the glob matches one capacity file, it cannot be read,
and the sysfs source accumulates no reading for it, so `collectBatteries`
reports that no battery data was found. -/
theorem sysfs_unreadable_capacity_counterexample :
    envUnreadable.glob "/sys/class/power_supply/BAT*/capacity".toList
      = ["/sys/class/power_supply/BAT0/capacity".toList] ∧
    (sysfsLoop envUnreadable
      (envUnreadable.glob "/sys/class/power_supply/BAT*/capacity".toList) [] []).1 = [] ∧
    (collectBatteries envUnreadable []).1 = ([], some "no battery data found".toList) := by
  refine ⟨rfl, by decide, by decide⟩

/-- C9, amended. In a fault-free environment the sysfs loop accumulates, in
match order, one `BatteryStatus` for every match whose capacity file is read
without error, and none for the others: `Percent` is the value `ParseFloat`
returns for the trimmed capacity content, which is 0 when that content is not
the text of a number; `Status` is the trimmed data read from the adjacent
`status` file, or `Unknown` when that is empty, as it is when the file is
missing; `TimeLeft`, `Health` and `CycleCount` are empty or zero. -/
theorem sysfsLoop_readings (env : Env) (hff : env.FaultFree) (matched : List Str)
    (tr : List Event) :
    (∃ tr1, sysfsLoop env matched [] tr
      = ((matched.filter (fun capFile => (env.readFile capFile).2.isNone)).map
          (fun capFile =>
            { Percent := (parseFloat (stringsTrimSpace (env.readFile capFile).1)).1
              Status :=
                if stringsTrimSpace
                    (env.readFile (filepathJoin (filepathDir capFile) "status".toList)).1 = []
                then "Unknown".toList
                else stringsTrimSpace
                    (env.readFile (filepathJoin (filepathDir capFile) "status".toList)).1
              TimeLeft := []
              Health := []
              CycleCount := 0 }),
        .ok () tr1)) ∧
    (∀ s : Str, (parseFloat s).2 = some NumError.errSyntax → (parseFloat s).1 = F64.zero) ∧
    filepathJoin (filepathDir "/sys/class/power_supply/BAT0/capacity".toList) "status".toList
      = "/sys/class/power_supply/BAT0/status".toList := by
  refine ⟨?_, parseFloat_syntax_zero, by decide⟩
  obtain ⟨tr1, h1⟩ := sysfsLoop_eq env hff matched [] tr
  refine ⟨tr1, ?_⟩
  rw [h1, List.nil_append]
  congr 1
  clear h1
  induction matched with
  | nil => rfl
  | cons c rest ih =>
    rw [List.filterMap_cons, List.filter_cons]
    cases hc : (env.readFile c).2 with
    | some e => simp [sysfsReadingRef, hc, ih]
    | none => simp [sysfsReadingRef, hc, ih]

/-- C9, amended, at a concrete input: two batteries, the second with a capacity
that is not a number and no status file. -/
theorem sysfsLoop_readings_witness :
    envTwoBatteries.FaultFree ∧
    ∃ tr1, sysfsLoop envTwoBatteries
        ["/sys/class/power_supply/BAT0/capacity".toList,
          "/sys/class/power_supply/BAT1/capacity".toList] [] []
      = ([⟨F64.ofInt 87, "Discharging".toList, [], [], 0⟩,
          ⟨F64.zero, "Unknown".toList, [], [], 0⟩], .ok () tr1) := by
  refine ⟨fun _ => rfl, ?_⟩
  obtain ⟨tr1, h⟩ := (sysfsLoop_readings envTwoBatteries (fun _ => rfl)
    ["/sys/class/power_supply/BAT0/capacity".toList,
      "/sys/class/power_supply/BAT1/capacity".toList] []).1
  refine ⟨tr1, ?_⟩
  rw [h]
  congr 1

/-- C10 fails on the code: on a macOS machine with `pmset`, `collectBatteries`
hands the process runner `context.Background()`, a context without deadline,
for the `pmset` call; the `system_profiler` call made next by
`getBatteryHealth` carries a timeout of two seconds. -/
theorem collectBatteries_pmset_without_deadline :
    (collectBatteries envMac []).2
      = [Event.lookPath "pmset".toList,
          Event.run none "pmset".toList ["-g".toList, "batt".toList],
          Event.run (some 2000) "system_profiler".toList ["SPPowerDataType".toList]] := by
  decide

/-! ## Extent of the defects found above -/

theorem F64.lt_of_not_le (a b : F64) (ha : a ≠ F64.nan) (hb : b ≠ F64.nan)
    (h : F64.le a b = false) : F64.lt b a = true := by
  cases a with
  | nan => exact absurd rfl ha
  | inf n1 =>
    cases b with
    | nan => exact absurd rfl hb
    | inf n2 => cases n1 <;> cases n2 <;> simp_all [F64.le, F64.lt]
    | fin n2 m2 e2 => cases n1 <;> simp_all [F64.le, F64.lt]
  | fin n1 m1 e1 =>
    cases b with
    | nan => exact absurd rfl hb
    | inf n2 => cases n2 <;> simp_all [F64.le, F64.lt]
    | fin n2 m2 e2 =>
      simp only [F64.le, decide_eq_false_iff_not, not_le] at h
      simp only [F64.lt, decide_eq_true_eq]
      rw [min_comm e2 e1]
      exact h

theorem F64.le_of_not_lt (a b : F64) (ha : a ≠ F64.nan) (hb : b ≠ F64.nan)
    (h : F64.lt b a = false) : F64.le a b = true := by
  cases a with
  | nan => exact absurd rfl ha
  | inf n1 =>
    cases b with
    | nan => exact absurd rfl hb
    | inf n2 => cases n1 <;> cases n2 <;> simp_all [F64.le, F64.lt]
    | fin n2 m2 e2 => cases n1 <;> simp_all [F64.le, F64.lt]
  | fin n1 m1 e1 =>
    cases b with
    | nan => exact absurd rfl hb
    | inf n2 => cases n2 <;> simp_all [F64.le, F64.lt]
    | fin n2 m2 e2 =>
      simp only [F64.lt, decide_eq_false_iff_not, not_lt] at h
      simp only [F64.le, decide_eq_true_eq]
      rw [min_comm e1 e2]
      exact h

/-- Apart from NaN, every value emitted by `collectSensors` lies in `(0, 150]`. -/
theorem collectSensors_range_of_not_nan (facility : List TemperatureStat × Option Str)
    (r : SensorReading) (hr : r ∈ (collectSensors facility).1) (hn : r.Value ≠ F64.nan) :
    F64.lt F64.zero r.Value = true ∧ F64.le r.Value (F64.ofInt 150) = true := by
  obtain ⟨temps, err⟩ := facility
  cases err with
  | some e => simp [collectSensors] at hr
  | none =>
    simp only [collectSensors, sensorsLoop_eq, List.nil_append, List.mem_map,
      List.mem_filter] at hr
    obtain ⟨t, ⟨_, ht⟩, rfl⟩ := hr
    simp only [Bool.and_eq_true, Bool.not_eq_true'] at ht
    have h150 : F64.ofInt 150 ≠ F64.nan := by decide
    exact ⟨F64.lt_of_not_le _ _ hn (by decide) ht.1,
      F64.le_of_not_lt _ _ hn h150 ht.2⟩

/-! ## Inputs without a percent sign -/

theorem mem_of_stringsContains_singleton (c : Char) :
    ∀ s : Str, stringsContains s [c] = true → c ∈ s := by
  intro s
  induction s with
  | nil => intro h; simp [stringsContains] at h
  | cons a s ih =>
    intro h
    rw [stringsContains, Bool.or_eq_true] at h
    rcases h with h | h
    · have : c = a := by simpa [List.isPrefixOf] using h
      rw [this]
      exact List.mem_cons_self _ _
    · exact List.mem_cons_of_mem _ (ih h)

theorem stringsSplit_mem (sep : Char) :
    ∀ (s l : Str), l ∈ stringsSplit sep s → ∀ c ∈ l, c ∈ s := by
  intro s
  induction s with
  | nil =>
    intro l hl c hc
    simp only [stringsSplit, List.mem_singleton] at hl
    rw [hl] at hc
    exact hc
  | cons a s ih =>
    intro l hl c hc
    rw [stringsSplit] at hl
    split at hl
    · rcases List.mem_cons.mp hl with h | h
      · rw [h] at hc; simp at hc
      · exact List.mem_cons_of_mem _ (ih l h c hc)
    · split at hl
      · rename_i hnil
        rw [List.mem_singleton] at hl
        rw [hl, List.mem_singleton] at hc
        rw [hc]
        exact List.mem_cons_self _ _
      · rename_i h0 t hs
        rcases List.mem_cons.mp hl with h | h
        · rw [h] at hc
          rcases List.mem_cons.mp hc with h1 | h1
          · rw [h1]; exact List.mem_cons_self _ _
          · exact List.mem_cons_of_mem _ (ih h0 (by rw [hs]; exact List.mem_cons_self _ _) c h1)
        · exact List.mem_cons_of_mem _ (ih l (by rw [hs]; exact List.mem_cons_of_mem _ h) c hc)

/-- C15. For every input text without any `%` character, the empty text
included, `parsePMSet` returns the empty sequence and makes no interaction at
all: its trace is unchanged, so no health query is run (in any environment,
faulty ones included). -/
theorem parsePMSet_no_percent (env : Env) (raw : Str) (tr : List Event) (h : '%' ∉ raw) :
    parsePMSet env raw tr = .ok [] tr ∧ parsePMSet env [] tr = .ok [] tr := by
  have hlines : ∀ (s : Str), '%' ∉ s →
      ∀ l ∈ stringsSplit '\n' s, stringsContains l "%".toList = false := by
    intro s hs l hl
    cases hc : stringsContains l "%".toList with
    | false => rfl
    | true =>
      exact absurd (stringsSplit_mem '\n' s l hl '%'
        (mem_of_stringsContains_singleton '%' l hc)) hs
  have hall : ∀ (s : Str), '%' ∉ s → parsePMSet env s tr = .ok [] tr := by
    intro s hs
    have := parsePMSetLoop_skip env (stringsSplit '\n' s) [] [] [] tr (hlines s hs)
    rw [List.append_nil] at this
    rw [parsePMSet, this]
    rfl
  exact ⟨hall raw h, hall [] (by simp)⟩

/-- C15 at a concrete input: the report of a machine on mains power without a battery. -/
theorem parsePMSet_no_percent_witness :
    parsePMSet envMac "Now drawing from AC Power\n".toList [] = .ok [] [] :=
  (parsePMSet_no_percent envMac "Now drawing from AC Power\n".toList [] (by decide)).1

/-! ## `prettifyLabel` -/

/-- C16. For every key `prettifyLabel` equals the reference definition (trim the
surrounding white space, then remove one leading `TC` if present, then replace
every underscore by a space); `TCXC_PROC` gives `XC PROC`; and the result never
contains an underscore. -/
theorem prettifyLabel_eq_ref :
    (∀ key : Str, prettifyLabel key = prettifyLabelRef key) ∧
    prettifyLabel "TCXC_PROC".toList = "XC PROC".toList ∧
    (∀ key : Str, '_' ∉ prettifyLabel key) := by
  refine ⟨?_, by decide, ?_⟩
  · intro key
    unfold prettifyLabel prettifyLabelRef stringsReplaceAll stringsTrimLeading
    dsimp only
    congr 1
    rcases stringsTrimSpace key with _ | ⟨a, _ | ⟨b, rest⟩⟩
    · rfl
    · by_cases ha : a = 'T' <;> simp [List.isPrefixOf, ha]
    · have ha1 : ∀ h : ¬ a = 'T', ¬ 'T' = a := fun h e => h e.symm
      have hb1 : ∀ h : ¬ b = 'C', ¬ 'C' = b := fun h e => h e.symm
      by_cases ha : a = 'T' <;> by_cases hb : b = 'C' <;>
        simp [List.isPrefixOf, ha, hb, ha1, hb1]
  · intro key hmem
    unfold prettifyLabel stringsReplaceAll at hmem
    rw [List.mem_map] at hmem
    obtain ⟨c, _, hc⟩ := hmem
    by_cases h : c = '_'
    · rw [if_pos h] at hc
      exact absurd hc (by decide)
    · rw [if_neg h] at hc
      exact h hc

theorem parsePMSetLoop_skip_one (env : Env) (line : Str) (rest : List Str) (tl : Str)
    (out : List BatteryStatus) (tr : List Event) (hr : lineReading line = none) :
    parsePMSetLoop env (line :: rest) tl out tr
      = parsePMSetLoop env rest (timeLeftAfter tl line) out tr := by
  unfold lineReading at hr
  rw [parsePMSetLoop]
  cases hc : stringsContains line "%".toList with
  | false => rfl
  | true =>
    rw [hc] at hr
    rcases hpl : percentLoop (stringsFields line) (stringsFields line).enum with ⟨p1, found, st1⟩
    rw [hpl] at hr
    cases found with
    | true => exact absurd hr (by simp)
    | false => rfl

theorem parsePMSetLoop_emit_with (env : Env) (line : Str) (rest : List Str) (tl : Str)
    (out : List BatteryStatus) (tr : List Event) (p : F64) (st h : Str) (c : Int)
    (tr0 : List Event) (hr : lineReading line = some (p, st))
    (hh : getBatteryHealth env tr = .ok (h, c) tr0) :
    parsePMSetLoop env (line :: rest) tl out tr
      = parsePMSetLoop env rest (timeLeftAfter tl line)
          (out ++ [⟨p, st, timeLeftAfter tl line, h, c⟩]) tr0 := by
  unfold lineReading at hr
  rw [parsePMSetLoop]
  cases hc : stringsContains line "%".toList with
  | false => rw [hc] at hr; exact absurd hr (by simp)
  | true =>
    rw [hc] at hr
    rcases hpl : percentLoop (stringsFields line) (stringsFields line).enum with ⟨p1, found, st1⟩
    rw [hpl] at hr
    cases found with
    | false => exact absurd hr (by simp)
    | true =>
      simp only [Bool.not_true, Bool.false_eq_true, if_false, Option.some.injEq,
        Prod.mk.injEq] at hr
      obtain ⟨rfl, rfl⟩ := hr
      simp only [hh, Bool.not_true, Bool.false_eq_true, if_false]
      rfl

theorem parsePMSetLoop_panic (env : Env) (line : Str) (rest : List Str) (tl : Str)
    (out : List BatteryStatus) (tr : List Event) (ps : F64 × Str) (r : Str)
    (tr0 : List Event) (hr : lineReading line = some ps)
    (hh : getBatteryHealth env tr = .panic r tr0) :
    parsePMSetLoop env (line :: rest) tl out tr = .panic r tr0 := by
  unfold lineReading at hr
  rw [parsePMSetLoop]
  cases hc : stringsContains line "%".toList with
  | false => rw [hc] at hr; exact absurd hr (by simp)
  | true =>
    rw [hc] at hr
    rcases hpl : percentLoop (stringsFields line) (stringsFields line).enum with ⟨p1, found, st1⟩
    rw [hpl] at hr
    cases found with
    | false => exact absurd hr (by simp)
    | true => simp only [hh, Bool.not_true, Bool.false_eq_true, if_false]
/-! ## Health queries of `parsePMSet` -/

theorem healthTrace_zero (env : Env) (tr : List Event) : healthTrace env tr 0 = tr := by
  unfold healthTrace
  split <;> simp

theorem healthTrace_succ (env : Env) (tr : List Event) (n : Nat) :
    healthTrace env (healthTrace env tr 1) n = healthTrace env tr (n + 1) := by
  unfold healthTrace
  split
  · rw [List.append_assoc, ← List.replicate_add, Nat.add_comm 1 n]
  · rfl

theorem getBatteryHealth_step (env : Env) (hff : env.FaultFree) (tr : List Event) :
    ∃ hc, getBatteryHealth env tr = .ok hc (healthTrace env tr 1) := by
  unfold getBatteryHealth healthTrace
  by_cases hos : env.goos = "darwin".toList
  · rw [if_neg (not_not.mpr hos), if_pos hos, runCmd_at env _ _ _ tr (hff _)]
    dsimp only
    split
    · exact ⟨_, rfl⟩
    · exact ⟨_, rfl⟩
  · rw [if_pos hos, if_neg hos]
    exact ⟨_, rfl⟩

theorem parsePMSetLoop_health (env : Env) (hff : env.FaultFree) :
    ∀ (lines : List Str) (tl : Str) (out : List BatteryStatus) (tr : List Event),
      ∃ news : List BatteryStatus,
        parsePMSetLoop env lines tl out tr
          = .ok (out ++ news) (healthTrace env tr news.length) ∧
        ∀ (k : Nat) (b : BatteryStatus), news[k]? = some b →
          getBatteryHealth env (healthTrace env tr k)
            = .ok (b.Health, b.CycleCount) (healthTrace env tr (k + 1)) := by
  intro lines
  induction lines with
  | nil =>
    intro tl out tr
    exact ⟨[], by simp [parsePMSetLoop, healthTrace_zero], by simp⟩
  | cons line rest ih =>
    intro tl out tr
    cases hr : lineReading line with
    | none =>
      have hskip := parsePMSetLoop_skip_one env line rest tl out tr hr
      rw [hskip]
      exact ih _ out tr
    | some ps =>
      obtain ⟨p, st⟩ := ps
      obtain ⟨⟨h, c⟩, hh⟩ := getBatteryHealth_step env hff tr
      rw [parsePMSetLoop_emit_with env line rest tl out tr p st h c _ hr hh]
      obtain ⟨news, h1, h2⟩ := ih (timeLeftAfter tl line)
        (out ++ [⟨p, st, timeLeftAfter tl line, h, c⟩]) (healthTrace env tr 1)
      refine ⟨⟨p, st, timeLeftAfter tl line, h, c⟩ :: news, ?_, ?_⟩
      · rw [h1, healthTrace_succ, List.append_assoc]
        rfl
      · intro k b hk
        cases k with
        | zero =>
          simp only [List.getElem?_cons_zero, Option.some.injEq] at hk
          subst hk
          rw [healthTrace_zero]
          exact hh
        | succ k =>
          simp only [List.getElem?_cons_succ] at hk
          have := h2 k b hk
          rw [healthTrace_succ, healthTrace_succ] at this
          exact this

/-- C11 as stated fails: on an input with two percent lines `parsePMSet` runs the
health query twice, once for each reading, and when the second query fails (here
it is killed at its deadline) the two readings carry different `Health` and
`CycleCount`. -/
theorem parsePMSet_health_counterexample :
    parsePMSet envFlakyHealth "87%; charging;\n55%; charging;".toList []
      = .ok [⟨F64.ofInt 87, "charging".toList, [], "Normal".toList, 123⟩,
          ⟨F64.ofInt 55, "charging".toList, [], [], 0⟩]
        [healthQuery, healthQuery] := by
  decide

/-- C11, amended. In a fault-free environment `parsePMSet` calls
`getBatteryHealth` once for each reading it emits and not otherwise: its trace
grows by one run of `system_profiler` per reading on darwin and by nothing on
other platforms; the reading number `k` carries the `Health` and `CycleCount`
returned by the call number `k`; on a platform other than darwin every reading
carries an empty `Health` and a `CycleCount` of 0. -/
theorem parsePMSet_health_queries (env : Env) (hff : env.FaultFree) (raw : Str)
    (tr : List Event) :
    ∃ batts : List BatteryStatus,
      parsePMSet env raw tr = .ok batts (healthTrace env tr batts.length) ∧
      (∀ (k : Nat) (b : BatteryStatus), batts[k]? = some b →
        getBatteryHealth env (healthTrace env tr k)
          = .ok (b.Health, b.CycleCount) (healthTrace env tr (k + 1))) ∧
      (env.goos ≠ "darwin".toList → ∀ b ∈ batts, b.Health = [] ∧ b.CycleCount = 0) := by
  obtain ⟨news, h1, h2⟩ := parsePMSetLoop_health env hff (stringsSplit '\n' raw) [] [] tr
  rw [List.nil_append] at h1
  refine ⟨news, h1, h2, ?_⟩
  intro hos b hb
  obtain ⟨k, hk⟩ := List.getElem?_of_mem hb
  have hq := h2 k b hk
  unfold getBatteryHealth at hq
  rw [if_pos hos] at hq
  injection hq with hq1 _
  simp only [Prod.mk.injEq] at hq1
  exact ⟨hq1.1.symm, hq1.2.symm⟩

/-- C11, amended, at a concrete input: two percent lines, two health queries. -/
theorem parsePMSet_health_queries_witness :
    envMac.FaultFree ∧
    ∃ batts : List BatteryStatus,
      parsePMSet envMac "87%; charging;\n55%; charging;".toList []
        = .ok batts (healthTrace envMac [] batts.length) ∧
      batts.length = 2 := by
  refine ⟨fun _ => rfl, ?_⟩
  obtain ⟨batts, h, _⟩ := parsePMSet_health_queries envMac (fun _ => rfl)
    "87%; charging;\n55%; charging;".toList []
  refine ⟨batts, h, ?_⟩
  have he : parsePMSet envMac "87%; charging;\n55%; charging;".toList []
      = .ok [⟨F64.ofInt 87, "charging".toList, [], "Normal".toList, 123⟩,
          ⟨F64.ofInt 55, "charging".toList, [], "Normal".toList, 123⟩]
        [healthQuery, healthQuery] := by decide
  rw [he] at h
  injection h with h3 _
  rw [← h3]
  rfl

/-! ## Skipped lines of `parsePMSet` -/

theorem percentLoop_bad (pre post : List Str) (tok : Str)
    (hpre : ∀ t ∈ pre, stringsContains t "%".toList = false)
    (htok : stringsContains tok "%".toList = true)
    (hp : (parseFloat (stringsTrimSuffix (stringsTrimSuffix tok ";".toList) "%".toList)).2
      ≠ none) :
    (percentLoop (pre ++ tok :: post) (pre ++ tok :: post).enum).2.1 = false := by
  rw [List.enum, List.enumFrom_append, percentLoop_skip _ pre 0 _ hpre, List.enumFrom_cons,
    percentLoop]
  simp only [htok, if_true]
  rcases h : parseFloat (stringsTrimSuffix (stringsTrimSuffix tok ";".toList) "%".toList)
    with ⟨v, e⟩
  rw [h] at hp
  cases e with
  | none => exact absurd rfl hp
  | some e => rfl

theorem lineReading_of_badLine (line : Str) (h : BadLine line) : lineReading line = none := by
  have hfound : (percentLoop (stringsFields line) (stringsFields line).enum).2.1 = false := by
    rcases h with h | ⟨pre, post, tok, hf, hpre, htok, hp⟩
    · have := percentLoop_skip (stringsFields line) (stringsFields line) 0 [] h
      rw [List.append_nil] at this
      rw [List.enum, this]
      rfl
    · rw [hf]
      exact percentLoop_bad pre post tok hpre htok hp
  unfold lineReading
  split
  · rfl
  · rcases hpl : percentLoop (stringsFields line) (stringsFields line).enum with ⟨p, found, st⟩
    rw [hpl] at hfound
    dsimp only at hfound
    rw [hfound]

theorem parsePMSetLoop_modulo_timeLeft (env : Env) :
    ∀ (lines : List Str) (tl1 tl2 : Str) (out1 out2 : List BatteryStatus) (tr : List Event),
      out1.map BatteryStatus.withoutTimeLeft = out2.map BatteryStatus.withoutTimeLeft →
      (parsePMSetLoop env lines tl1 out1 tr).withoutTimeLeft
        = (parsePMSetLoop env lines tl2 out2 tr).withoutTimeLeft := by
  intro lines
  induction lines with
  | nil =>
    intro tl1 tl2 out1 out2 tr h
    simp only [parsePMSetLoop, Res.withoutTimeLeft, h]
  | cons line rest ih =>
    intro tl1 tl2 out1 out2 tr h
    cases hr : lineReading line with
    | none =>
      rw [parsePMSetLoop_skip_one env line rest tl1 out1 tr hr,
        parsePMSetLoop_skip_one env line rest tl2 out2 tr hr]
      exact ih _ _ _ _ tr h
    | some ps =>
      cases hh : getBatteryHealth env tr with
      | panic r tr0 =>
        rw [parsePMSetLoop_panic env line rest tl1 out1 tr ps r tr0 hr hh,
          parsePMSetLoop_panic env line rest tl2 out2 tr ps r tr0 hr hh]
      | ok hc tr0 =>
        obtain ⟨p, st⟩ := ps
        obtain ⟨hl, c⟩ := hc
        rw [parsePMSetLoop_emit_with env line rest tl1 out1 tr p st hl c tr0 hr hh,
          parsePMSetLoop_emit_with env line rest tl2 out2 tr p st hl c tr0 hr hh]
        apply ih
        rw [List.map_append, List.map_append, h]
        rfl

theorem parsePMSetLoop_drop_line (env : Env) (bad : Str) (after : List Str)
    (hbad : lineReading bad = none) :
    ∀ (before : List Str) (tl : Str) (out : List BatteryStatus) (tr : List Event),
      (parsePMSetLoop env (before ++ bad :: after) tl out tr).withoutTimeLeft
          = (parsePMSetLoop env (before ++ after) tl out tr).withoutTimeLeft ∧
      (¬ HasRemaining bad →
        parsePMSetLoop env (before ++ bad :: after) tl out tr
          = parsePMSetLoop env (before ++ after) tl out tr) := by
  intro before
  induction before with
  | nil =>
    intro tl out tr
    rw [List.nil_append, List.nil_append, parsePMSetLoop_skip_one env bad after tl out tr hbad]
    refine ⟨parsePMSetLoop_modulo_timeLeft env after _ _ out out tr rfl, ?_⟩
    intro hno
    rw [timeLeftAfter_of_not_hasRemaining tl bad hno]
  | cons line rest ih =>
    intro tl out tr
    rw [List.cons_append, List.cons_append]
    cases hr : lineReading line with
    | none =>
      rw [parsePMSetLoop_skip_one env line _ tl out tr hr,
        parsePMSetLoop_skip_one env line _ tl out tr hr]
      exact ih _ out tr
    | some ps =>
      cases hh : getBatteryHealth env tr with
      | panic r tr0 =>
        rw [parsePMSetLoop_panic env line _ tl out tr ps r tr0 hr hh,
          parsePMSetLoop_panic env line _ tl out tr ps r tr0 hr hh]
        exact ⟨rfl, fun _ => rfl⟩
      | ok hc tr0 =>
        obtain ⟨p, st⟩ := ps
        obtain ⟨hl, c⟩ := hc
        rw [parsePMSetLoop_emit_with env line _ tl out tr p st hl c tr0 hr hh,
          parsePMSetLoop_emit_with env line _ tl out tr p st hl c tr0 hr hh]
        exact ih _ _ tr0

/-- C14. A line none of whose tokens contains `%`, or whose first token
containing `%` does not parse as a number, contributes no reading and no
interaction: up to the `TimeLeft` of the readings (which a `remaining` token of
the line may change), the outcome of `parsePMSet` is the outcome of the line loop
on the other lines, hence of `parsePMSet` on an input made of the other lines;
the two outcomes are equal when the line has no token `remaining` after its
first token. In a fault-free environment the parse ends normally. -/
theorem parsePMSet_bad_line (env : Env) (tr : List Event) (raw : Str)
    (before after : List Str) (bad : Str)
    (hsplit : stringsSplit '\n' raw = before ++ bad :: after) (hbad : BadLine bad) :
    (parsePMSet env raw tr).withoutTimeLeft
        = (parsePMSetLoop env (before ++ after) [] [] tr).withoutTimeLeft ∧
    (¬ HasRemaining bad →
      parsePMSet env raw tr = parsePMSetLoop env (before ++ after) [] [] tr) ∧
    (∀ raw2 : Str, stringsSplit '\n' raw2 = before ++ after →
      (parsePMSet env raw tr).withoutTimeLeft = (parsePMSet env raw2 tr).withoutTimeLeft ∧
      (¬ HasRemaining bad → parsePMSet env raw tr = parsePMSet env raw2 tr)) ∧
    (env.FaultFree → ∃ batts tr1, parsePMSet env raw tr = .ok batts tr1) := by
  have hnone := lineReading_of_badLine bad hbad
  have hdrop := parsePMSetLoop_drop_line env bad after hnone before [] [] tr
  refine ⟨?_, ?_, ?_, fun hff => parsePMSet_ok env hff raw tr⟩
  · rw [parsePMSet, hsplit]
    exact hdrop.1
  · rw [parsePMSet, hsplit]
    exact hdrop.2
  · intro raw2 h2
    rw [parsePMSet, parsePMSet, hsplit, h2]
    exact hdrop

/-- C14 at a concrete input: a line whose percent token `x%` is not a number,
between a line without percent sign and a good percent line. -/
theorem parsePMSet_bad_line_witness :
    parsePMSet envMac "Now drawing from Battery Power\n battery x% unknown\n 87%; charging;".toList []
      = parsePMSet envMac "Now drawing from Battery Power\n 87%; charging;".toList [] :=
  ((parsePMSet_bad_line envMac []
    "Now drawing from Battery Power\n battery x% unknown\n 87%; charging;".toList
    ["Now drawing from Battery Power".toList] [" 87%; charging;".toList]
    " battery x% unknown".toList (by decide)
    (Or.inr ⟨["battery".toList], ["unknown".toList], "x%".toList,
      by decide, by decide, by decide, by decide⟩)).2.2.1
    "Now drawing from Battery Power\n 87%; charging;".toList (by decide)).2 (by decide)

/-! ## Range of `Percent` -/

theorem percentLoop_true (fields : List Str) (p : F64) (st : Str) :
    ∀ (l : List Str) (k : Nat), percentLoop fields (List.enumFrom k l) = (p, true, st) →
      ∃ tok ∈ l,
        parseFloat (stringsTrimSuffix (stringsTrimSuffix tok ";".toList) "%".toList)
          = (p, none) := by
  intro l
  induction l with
  | nil =>
    intro k h
    simp [percentLoop] at h
  | cons a l ih =>
    intro k h
    rw [List.enumFrom_cons, percentLoop] at h
    split at h
    · rcases hp : parseFloat (stringsTrimSuffix (stringsTrimSuffix a ";".toList) "%".toList)
        with ⟨v, e⟩
      rw [hp] at h
      cases e with
      | some e => simp at h
      | none =>
        simp only [Prod.mk.injEq] at h
        exact ⟨a, List.mem_cons_self _ _, by rw [hp, h.1]⟩
    · obtain ⟨tok, ht, hp⟩ := ih (k + 1) h
      exact ⟨tok, List.mem_cons_of_mem _ ht, hp⟩

theorem lineReading_some (line : Str) (p : F64) (st : Str)
    (h : lineReading line = some (p, st)) :
    ∃ tok ∈ stringsFields line,
      parseFloat (stringsTrimSuffix (stringsTrimSuffix tok ";".toList) "%".toList)
        = (p, none) := by
  unfold lineReading at h
  split at h
  · cases h
  · rcases hpl : percentLoop (stringsFields line) (stringsFields line).enum with ⟨p1, found, st1⟩
    rw [hpl] at h
    cases found with
    | false => cases h
    | true =>
      simp only [Option.some.injEq, Prod.mk.injEq] at h
      rw [h.1, h.2] at hpl
      exact percentLoop_true _ p st _ 0 hpl

/-- C17 as stated fails: the token `150%` gives a reading with `Percent = 150`,
which is above 100. -/
theorem percent_range_counterexample :
    parsePMSet envLinux "150%; charging;".toList []
      = .ok [⟨F64.ofInt 150, "charging".toList, [], [], 0⟩] [] ∧
    F64.le (F64.ofInt 150) (F64.ofInt 100) = false := by
  refine ⟨by decide, by decide⟩

/-- C17, amended. No range check is applied to `Percent`: in a fault-free
environment every reading of `parsePMSet` has as `Percent` the number parsed
from a token of the input, and every reading of the sysfs loop the number
parsed from the trimmed content of a capacity file. So `0 <= Percent <= 100`
holds for every emitted reading provided every number parsed from the tokens
of the input, respectively from the capacity files, lies between 0 and 100. -/
theorem percent_range_of_input (env : Env) (hff : env.FaultFree) (tr : List Event) :
    (∀ raw : Str,
      (∀ line ∈ stringsSplit '\n' raw, ∀ tok ∈ stringsFields line, ∀ p : F64,
        parseFloat (stringsTrimSuffix (stringsTrimSuffix tok ";".toList) "%".toList)
          = (p, none) → p.isPercent) →
      ∃ batts tr1, parsePMSet env raw tr = .ok batts tr1 ∧ ∀ b ∈ batts, b.Percent.isPercent) ∧
    (∀ matched : List Str,
      (∀ capFile ∈ matched,
        (parseFloat (stringsTrimSpace (env.readFile capFile).1)).1.isPercent) →
      ∀ b ∈ (sysfsLoop env matched [] tr).1, b.Percent.isPercent) := by
  constructor
  · intro raw hin
    obtain ⟨outs, tr1, h1, h2, h3⟩ :=
      parsePMSetLoop_outs env hff (stringsSplit '\n' raw) [] [] tr
    refine ⟨_, tr1, h1, ?_⟩
    intro b hb
    rw [List.nil_append, List.mem_flatten] at hb
    obtain ⟨o, ho, hbo⟩ := hb
    obtain ⟨i, hi⟩ := List.getElem?_of_mem ho
    have hlt : i < (stringsSplit '\n' raw).length := by
      rw [← h2]
      exact (List.getElem?_eq_some_iff.mp hi).1
    obtain ⟨o1, ho1, hlo⟩ := h3 i _ (List.getElem?_eq_getElem hlt)
    rw [hi] at ho1
    cases ho1
    unfold LineOut at hlo
    split at hlo
    · rw [hlo] at hbo; simp at hbo
    · rename_i p st hr
      obtain ⟨h, c, rfl⟩ := hlo
      rw [List.mem_singleton] at hbo
      obtain ⟨tok, ht, hp⟩ := lineReading_some _ p st hr
      rw [hbo]
      exact hin _ (List.getElem_mem hlt) tok ht p hp
  · intro matched hin b hb
    obtain ⟨tr1, h1⟩ := sysfsLoop_eq env hff matched [] tr
    rw [h1, List.nil_append] at hb
    dsimp only at hb
    rw [List.mem_filterMap] at hb
    obtain ⟨capFile, hc, hs⟩ := hb
    unfold sysfsReadingRef at hs
    split at hs
    · cases hs
    · simp only [Option.some.injEq] at hs
      rw [← hs]
      exact hin capFile hc

/-- C17, amended, at a concrete input: a report with 87 percent. -/
theorem percent_range_of_input_witness :
    envMac.FaultFree ∧
    ∃ batts tr1, parsePMSet envMac "87%; charging;".toList [] = .ok batts tr1 ∧
      ∀ b ∈ batts, b.Percent.isPercent :=
  ⟨fun _ => rfl,
    (percent_range_of_input envMac (fun _ => rfl) []).1 "87%; charging;".toList (by
      intro line hl tok ht p hp
      have hl1 : line = "87%; charging;".toList := by
        have : stringsSplit '\n' "87%; charging;".toList = ["87%; charging;".toList] := by decide
        rw [this, List.mem_singleton] at hl
        exact hl
      subst hl1
      have hf : stringsFields "87%; charging;".toList = ["87%;".toList, "charging;".toList] := by
        decide
      rw [hf] at ht
      rcases List.mem_cons.mp ht with h | h
      · subst h
        have : parseFloat (stringsTrimSuffix (stringsTrimSuffix "87%;".toList ";".toList)
            "%".toList) = (F64.ofInt 87, none) := by decide
        rw [this] at hp
        injection hp with hp1 _
        rw [← hp1]
        decide
      · rw [List.mem_singleton] at h
        subst h
        have : parseFloat (stringsTrimSuffix (stringsTrimSuffix "charging;".toList ";".toList)
            "%".toList) = (F64.zero, some NumError.errSyntax) := by decide
        rw [this] at hp
        injection hp with _ hp2
        cases hp2)⟩

/-! ## A failed `pmset` run and a machine without battery -/

/-- C18 as stated fails: when the `pmset` run fails and when it succeeds but
reports no battery, with no sysfs battery file in both cases, `collectBatteries`
returns the same outcome, no readings and the error `no battery data found`. -/
theorem collectBatteries_probe_error_counterexample :
    (envPmsetFails.runCmd 1 none "pmset".toList ["-g".toList, "batt".toList]).2
      = some "context deadline exceeded".toList ∧
    (envPmsetNoBattery.runCmd 1 none "pmset".toList ["-g".toList, "batt".toList])
      = ("Now drawing from AC Power\n".toList, none) ∧
    (collectBatteries envPmsetFails []).1 = ([], some "no battery data found".toList) ∧
    (collectBatteries envPmsetNoBattery []).1 = ([], some "no battery data found".toList) ∧
    (collectBatteries envPmsetFails []).1 = (collectBatteries envPmsetNoBattery []).1 := by
  refine ⟨rfl, rfl, by decide, by decide, by decide⟩

theorem collectionFailed_ne (r : Str) : collectionFailed r ≠ "no battery data found".toList := by
  unfold collectionFailed
  intro h
  have h0 := congrArg List.head? h
  have e1 : ("battery collection failed: ".toList ++ r).head? = some 'b' := rfl
  rw [e1] at h0
  exact absurd h0 (by decide)

/-- C18, amended. In fault-free environments without sysfs battery readings,
a `pmset` run that fails is silently ignored: `collectBatteries` returns the
same outcome, no readings and the error `no battery data found`, as when
`pmset` runs successfully and its report yields no reading (the run of `pmset`
is the second interaction, after its lookup). That error differs
only from the error made for a recovered runtime fault, whatever the
description of the fault. -/
theorem collectBatteries_probe_error_same (env1 env2 : Env) (tr : List Event) (o : Str)
    (tr3 : List Event) (hff1 : env1.FaultFree) (hff2 : env2.FaultFree)
    (hfail : (env1.runCmd (tr.length + 1) none "pmset".toList
      ["-g".toList, "batt".toList]).2 ≠ none)
    (hrun : env2.runCmd (tr.length + 1) none "pmset".toList ["-g".toList, "batt".toList]
      = (o, none))
    (hnone : parsePMSet env2 o
      (tr ++ [Event.lookPath "pmset".toList,
        Event.run none "pmset".toList ["-g".toList, "batt".toList]]) = .ok [] tr3)
    (hs1 : sysfsReadingsRef env1.glob env1.readFile = [])
    (hs2 : sysfsReadingsRef env2.glob env2.readFile = []) :
    (collectBatteries env1 tr).1 = ([], some "no battery data found".toList) ∧
    (collectBatteries env2 tr).1 = ([], some "no battery data found".toList) ∧
    (collectBatteries env1 tr).1 = (collectBatteries env2 tr).1 ∧
    ∀ r : Str, collectionFailed r ≠ "no battery data found".toList := by
  have h1 : (collectBatteries env1 tr).1 = ([], some "no battery data found".toList) := by
    rcases collectBatteries_cases env1 hff1 tr with ⟨b, t3, ⟨_, _, o1, hr, _⟩, _⟩ | ⟨_, tr1, hres⟩
    · rw [hr] at hfail
      exact absurd rfl hfail
    · rw [hres, if_pos hs1]
  have h2 : (collectBatteries env2 tr).1 = ([], some "no battery data found".toList) := by
    rcases collectBatteries_cases env2 hff2 tr with
      ⟨b, t3, ⟨_, _, o1, hr, hp, hne⟩, _⟩ | ⟨_, tr1, hres⟩
    · rw [hrun] at hr
      cases hr
      rw [hnone] at hp
      cases hp
      exact absurd rfl hne
    · rw [hres, if_pos hs2]
  exact ⟨h1, h2, by rw [h1, h2], collectionFailed_ne⟩

/-- C18, amended, at a concrete input: a `pmset` run that exceeds its deadline
and a `pmset` report without battery. -/
theorem collectBatteries_probe_error_same_witness :
    (collectBatteries envPmsetFails []).1 = ([], some "no battery data found".toList) ∧
    (collectBatteries envPmsetNoBattery []).1 = ([], some "no battery data found".toList) :=
  ⟨(collectBatteries_probe_error_same envPmsetFails envPmsetNoBattery []
      "Now drawing from AC Power\n".toList
      [Event.lookPath "pmset".toList,
        Event.run none "pmset".toList ["-g".toList, "batt".toList]]
      (fun _ => rfl) (fun _ => rfl) (by decide) rfl (by decide)
      (by decide) (by decide)).1,
    (collectBatteries_probe_error_same envPmsetFails envPmsetNoBattery []
      "Now drawing from AC Power\n".toList
      [Event.lookPath "pmset".toList,
        Event.run none "pmset".toList ["-g".toList, "batt".toList]]
      (fun _ => rfl) (fun _ => rfl) (by decide) rfl (by decide)
      (by decide) (by decide)).2.1⟩

/-! ## Lines with exactly one colon -/

theorem stringsSplit_of_not_mem (sep : Char) :
    ∀ s : Str, sep ∉ s → stringsSplit sep s = [s] := by
  intro s
  induction s with
  | nil => intro _; rfl
  | cons a s ih =>
    intro h
    have ha : ¬ a = sep := fun e => h (by rw [e]; exact List.mem_cons_self _ _)
    have hs : sep ∉ s := fun e => h (List.mem_cons_of_mem _ e)
    rw [stringsSplit, if_neg ha, ih hs]

theorem stringsSplit_length (sep : Char) :
    ∀ s : Str, (stringsSplit sep s).length = s.count sep + 1 := by
  intro s
  induction s with
  | nil => rfl
  | cons a s ih =>
    rw [stringsSplit]
    by_cases ha : a = sep
    · rw [if_pos ha, List.length_cons, ih, ha, List.count_cons_self]
    · rw [if_neg ha, List.count_cons_of_ne (Ne.symm ha)]
      cases hs : stringsSplit sep s with
      | nil => rw [hs] at ih; simp at ih
      | cons h t =>
        rw [hs] at ih
        simpa using ih

theorem stringsSplit_one_sep (sep : Char) :
    ∀ s : Str, s.count sep = 1 →
      stringsSplit sep s
        = [s.takeWhile (fun c => c != sep), (s.dropWhile (fun c => c != sep)).drop 1] := by
  intro s
  induction s with
  | nil => intro h; simp at h
  | cons a s ih =>
    intro h
    rw [stringsSplit]
    by_cases ha : a = sep
    · rw [ha, List.count_cons_self] at h
      have hs : sep ∉ s := by
        intro hm
        have := List.count_pos_iff.mpr hm
        omega
      rw [if_pos ha, stringsSplit_of_not_mem sep s hs]
      simp [ha]
    · rw [List.count_cons_of_ne (Ne.symm ha)] at h
      rw [if_neg ha, ih h]
      simp [ha]

theorem stringsSplit_not_pair (sep : Char) (s a b : Str) (h : s.count sep ≠ 1) :
    stringsSplit sep s ≠ [a, b] := by
  intro he
  have := stringsSplit_length sep s
  rw [he] at this
  simp at this
  omega

/-! ## The line loops over the power report -/

theorem foldl_no_match {σ : Type} (P : Str → Prop) [DecidablePred P] (g : Str → σ) :
    ∀ (ls : List Str) (s : σ), (∀ l ∈ ls, ¬ P l) →
      ls.foldl (fun s l => if P l then g l else s) s = s := by
  intro ls
  induction ls with
  | nil => intro s _; rfl
  | cons l ls ih =>
    intro s h
    rw [List.foldl_cons, if_neg (h l (List.mem_cons_self _ _))]
    exact ih s (fun x hx => h x (List.mem_cons_of_mem _ hx))

theorem foldl_last_match {σ : Type} (P : Str → Prop) [DecidablePred P] (g : Str → σ)
    (before after : List Str) (line : Str) (s : σ) (hl : P line) (ha : ∀ l ∈ after, ¬ P l) :
    (before ++ line :: after).foldl (fun s l => if P l then g l else s) s = g line := by
  rw [List.foldl_append, List.foldl_cons, if_pos hl]
  exact foldl_no_match P g after (g line) ha

theorem healthScan_eq_foldl :
    ∀ (lines : List Str) (health : Str) (cycles : Int),
      healthScan lines health cycles
        = (lines.foldl (fun h l =>
              if ConditionLine l then stringsTrimSpace (afterFirstColon l) else h) health,
            lines.foldl (fun c l =>
              if CycleLine l then (atoi (stringsTrimSpace (afterFirstColon l))).1 else c)
              cycles) := by
  intro lines
  induction lines with
  | nil => intro health cycles; rfl
  | cons line rest ih =>
    intro health cycles
    rw [healthScan, List.foldl_cons, List.foldl_cons]
    rw [ih]
    have hc : (if stringsContains (stringsToLower line) "cycle count".toList = true then
          (match stringsSplit ':' line with
            | [_, p1] => (atoi (stringsTrimSpace p1)).1
            | _ => cycles)
          else cycles)
        = if CycleLine line then (atoi (stringsTrimSpace (afterFirstColon line))).1
          else cycles := by
      unfold CycleLine
      by_cases h1 : stringsContains (stringsToLower line) "cycle count".toList = true
      · by_cases h2 : line.count ':' = 1
        · rw [if_pos h1, if_pos ⟨h1, h2⟩, stringsSplit_one_sep ':' line h2]
          rfl
        · rw [if_pos h1, if_neg (fun h => h2 h.2)]
          split
          · rename_i a b he
            exact absurd he (stringsSplit_not_pair ':' line a b h2)
          · rfl
      · rw [if_neg h1, if_neg (fun h => h1 h.1)]
    have hh : (if stringsContains (stringsToLower line) "condition".toList = true then
          (match stringsSplit ':' line with
            | [_, p1] => stringsTrimSpace p1
            | _ => health)
          else health)
        = if ConditionLine line then stringsTrimSpace (afterFirstColon line) else health := by
      unfold ConditionLine
      by_cases h1 : stringsContains (stringsToLower line) "condition".toList = true
      · by_cases h2 : line.count ':' = 1
        · rw [if_pos h1, if_pos ⟨h1, h2⟩, stringsSplit_one_sep ':' line h2]
          rfl
        · rw [if_pos h1, if_neg (fun h => h2 h.2)]
          split
          · rename_i a b he
            exact absurd he (stringsSplit_not_pair ':' line a b h2)
          · rfl
      · rw [if_neg h1, if_neg (fun h => h1 h.1)]
    rw [hc, hh]

theorem fanScan_eq_foldl :
    ∀ (lines : List Str) (fan : Int),
      fanScan lines fan
        = lines.foldl (fun f l =>
            if FanLine l then
              (atoi ((stringsSplit ' ' (stringsTrimSpace (afterFirstColon l))).headD [])).1
            else f) fan := by
  intro lines
  induction lines with
  | nil => intro fan; rfl
  | cons line rest ih =>
    intro fan
    rw [fanScan, List.foldl_cons]
    unfold FanLine
    by_cases h1 : (stringsContains (stringsToLower line) "fan".toList = true ∧
        stringsContains (stringsToLower line) "speed".toList = true)
    · have h1b : (stringsContains (stringsToLower line) "fan".toList &&
          stringsContains (stringsToLower line) "speed".toList) = true := by
        rw [Bool.and_eq_true]; exact h1
      by_cases h2 : line.count ':' = 1
      · rw [if_pos h1b, if_pos ⟨h1, h2⟩, stringsSplit_one_sep ':' line h2]
        exact ih _
      · rw [if_pos h1b, if_neg (fun h => h2 h.2)]
        split
        · rename_i a b he
          exact absurd he (stringsSplit_not_pair ':' line a b h2)
        · exact ih _
    · have h1b : ¬ (stringsContains (stringsToLower line) "fan".toList &&
          stringsContains (stringsToLower line) "speed".toList) = true := by
        rw [Bool.and_eq_true]; exact h1
      rw [if_neg h1b, if_neg (fun h => h1 h.1)]
      exact ih _

theorem atoi_syntax_zero (s : Str) (h : (atoi s).2 = some NumError.errSyntax) :
    (atoi s).1 = 0 := by
  unfold atoi at h ⊢
  by_cases hs : s = []
  · rw [if_pos hs]
  · rw [if_neg hs] at h ⊢
    generalize (match s with
      | '+' :: r => (false, r)
      | '-' :: r => (true, r)
      | _ => (false, s)) = ns at h ⊢
    obtain ⟨neg, s1⟩ := ns
    dsimp only at h ⊢
    rcases hp : parseUint s1 with ⟨un, e⟩
    rw [hp] at h
    cases e with
    | none =>
      exfalso
      revert h
      dsimp only
      split
      · intro h; cases h
      · split <;> intro h <;> cases h
    | some e =>
      cases e with
      | errSyntax => rfl
      | errRange =>
        exfalso
        revert h
        dsimp only
        split
        · intro h; cases h
        · split <;> intro h <;> cases h

/-! ## `getBatteryHealth` on the power report -/

/-- C12 as stated fails: the report line `Condition: Normal: ok` contains
`condition`, and the trimmed text after its first colon is `Normal: ok`, yet
`getBatteryHealth` returns an empty condition label, because the line has two
colons. -/
theorem getBatteryHealth_two_colons_counterexample :
    getBatteryHealth envTwoColons [] = .ok ([], 123) [healthQuery] ∧
    "      Condition: Normal: ok".toList
      ∈ stringsSplit '\n' (envTwoColons.runCmd 0 (some 2000) "system_profiler".toList
        ["SPPowerDataType".toList]).1 ∧
    stringsContains (stringsToLower "      Condition: Normal: ok".toList) "condition".toList
      = true ∧
    stringsTrimSpace (afterFirstColon "      Condition: Normal: ok".toList)
      = "Normal: ok".toList := by
  refine ⟨by decide, by decide, by decide, by decide⟩

/-- C12, amended. On a platform other than darwin, and when the run of
`system_profiler` fails, `getBatteryHealth` returns an empty label and 0. When
the run succeeds, the cycle count is the integer parsed from the trimmed text
after the colon of the last line that contains `cycle count` (in any letter
case) and has exactly one colon, 0 when there is no such line; the condition
label is the trimmed text after the colon of the last line that contains
`condition` and has exactly one colon, empty when there is no such line. A line
with no colon or with several colons is passed over. A text that is not an
integer gives 0. -/
theorem getBatteryHealth_report (env : Env) (tr : List Event) :
    (env.goos ≠ "darwin".toList → getBatteryHealth env tr = .ok ([], 0) tr) ∧
    (env.goos = "darwin".toList → env.fault tr.length = none →
      ∀ (out : Str) (err : Option Str),
        env.runCmd tr.length (some 2000) "system_profiler".toList ["SPPowerDataType".toList]
          = (out, err) →
        (err ≠ none → getBatteryHealth env tr = .ok ([], 0) (tr ++ [healthQuery])) ∧
        (err = none →
          ∃ (health : Str) (cycles : Int),
            getBatteryHealth env tr = .ok (health, cycles) (tr ++ [healthQuery]) ∧
            (∀ (before after : List Str) (line : Str),
              stringsSplit '\n' out = before ++ line :: after → CycleLine line →
              (∀ l ∈ after, ¬ CycleLine l) →
              cycles = (atoi (stringsTrimSpace (afterFirstColon line))).1) ∧
            ((∀ l ∈ stringsSplit '\n' out, ¬ CycleLine l) → cycles = 0) ∧
            (∀ (before after : List Str) (line : Str),
              stringsSplit '\n' out = before ++ line :: after → ConditionLine line →
              (∀ l ∈ after, ¬ ConditionLine l) →
              health = stringsTrimSpace (afterFirstColon line)) ∧
            ((∀ l ∈ stringsSplit '\n' out, ¬ ConditionLine l) → health = []))) ∧
    (∀ s : Str, (atoi s).2 = some NumError.errSyntax → (atoi s).1 = 0) := by
  refine ⟨?_, ?_, atoi_syntax_zero⟩
  · intro hos
    unfold getBatteryHealth
    rw [if_pos hos]
  · intro hos hf out err hrun
    unfold getBatteryHealth
    rw [if_neg (not_not.mpr hos), runCmd_at env _ _ _ tr hf, hrun]
    dsimp only
    constructor
    · intro he
      cases err with
      | none => exact absurd rfl he
      | some e => rfl
    · intro he
      subst he
      refine ⟨_, _, by rw [healthScan_eq_foldl]; rfl, ?_, ?_, ?_, ?_⟩
      · intro before after line hs hl ha
        rw [hs]
        exact (foldl_last_match CycleLine
          (fun l => (atoi (stringsTrimSpace (afterFirstColon l))).1) before after line 0 hl ha)
      · intro hno
        exact foldl_no_match CycleLine
          (fun l => (atoi (stringsTrimSpace (afterFirstColon l))).1) _ 0 hno
      · intro before after line hs hl ha
        rw [hs]
        exact (foldl_last_match ConditionLine
          (fun l => stringsTrimSpace (afterFirstColon l)) before after line [] hl ha)
      · intro hno
        exact foldl_no_match ConditionLine
          (fun l => stringsTrimSpace (afterFirstColon l)) _ [] hno

/-- C12, amended, at a concrete input: a report with a cycle count of 123 and
the condition `Normal`. -/
theorem getBatteryHealth_report_witness :
    getBatteryHealth envMac [] = .ok ("Normal".toList, 123) [healthQuery] := by
  obtain ⟨health, cycles, h, hc, _, hh, _⟩ :=
    ((getBatteryHealth_report envMac []).2.1 rfl rfl
      "      Cycle Count: 123\n      Condition: Normal\n".toList none rfl).2 rfl
  have h1 := hc [] ["      Condition: Normal".toList, []] "      Cycle Count: 123".toList
    (by decide) (by decide) (by decide)
  have h2 := hh ["      Cycle Count: 123".toList] [[]] "      Condition: Normal".toList
    (by decide) (by decide) (by decide)
  rw [h, h1, h2]
  decide

/-! ## Fan speed of `collectThermal` -/

theorem thermalLevel_fan (env : Env) (hff : env.FaultFree) (thermal : ThermalStatus)
    (tr : List Event) :
    ∃ th tr1, thermalLevel env thermal tr = .ok th tr1 ∧ th.FanSpeed = thermal.FanSpeed := by
  unfold thermalLevel
  rw [runCmd_at env _ _ _ tr (hff _)]
  dsimp only
  split
  · exact ⟨_, _, rfl, rfl⟩
  · split
    · exact ⟨_, _, rfl, rfl⟩
    · exact ⟨_, _, rfl, rfl⟩

theorem thermalPowermetrics_fan (env : Env) (hff : env.FaultFree) (thermal : ThermalStatus)
    (tr : List Event) :
    ∃ th tr1, thermalPowermetrics env thermal tr = .ok th tr1 ∧
      th.FanSpeed = thermal.FanSpeed := by
  unfold thermalPowermetrics
  rw [commandExists_at env _ _ (hff _)]
  cases env.commandExists "powermetrics".toList with
  | false => exact thermalLevel_fan env hff thermal _
  | true =>
    dsimp only
    split
    · rw [runCmd_at env _ _ _ _ (hff _)]
      dsimp only
      split
      · exact thermalLevel_fan env hff thermal _
      · split
        · exact ⟨_, _, rfl, rfl⟩
        · exact thermalLevel_fan env hff thermal _
    · exact thermalLevel_fan env hff thermal _

theorem collectThermal_fan (env : Env) (hff : env.FaultFree) (tr : List Event)
    (hos : env.goos = "darwin".toList) :
    ∃ th tr1, collectThermal env tr = .ok th tr1 ∧
      th.FanSpeed =
        if (env.runCmd tr.length (some 2000) "system_profiler".toList
            ["SPPowerDataType".toList]).2.isSome then 0
        else fanScan (stringsSplit '\n' (env.runCmd tr.length (some 2000)
            "system_profiler".toList ["SPPowerDataType".toList]).1) 0 := by
  unfold collectThermal
  rw [if_neg (not_not.mpr hos), runCmd_at env _ _ _ tr (hff _)]
  rcases env.runCmd tr.length (some 2000) "system_profiler".toList ["SPPowerDataType".toList]
    with ⟨out, err⟩
  dsimp only
  rw [commandExists_at env _ _ (hff _)]
  cases env.commandExists "osx-cpu-temp".toList with
  | false => exact thermalPowermetrics_fan env hff _ _
  | true =>
    dsimp only
    rw [runCmd_at env _ _ _ _ (hff _)]
    dsimp only
    split
    · exact thermalPowermetrics_fan env hff _ _
    · split
      · split
        · exact ⟨_, _, rfl, rfl⟩
        · exact thermalPowermetrics_fan env hff _ _
      · exact thermalPowermetrics_fan env hff _ _

/-- C13 as stated fails: the report line `Fan Speed: 1200 RPM (max: 6000)`
mentions `fan` and `speed`, and the leading token of the value after its first
colon is the integer 1200, yet `collectThermal` returns `FanSpeed = 0`, because
the line has two colons. -/
theorem collectThermal_fan_two_colons_counterexample :
    collectThermal envTwoColons [] = .ok ⟨F64.zero, 0⟩
      [Event.run (some 2000) "system_profiler".toList ["SPPowerDataType".toList],
        Event.lookPath "osx-cpu-temp".toList,
        Event.lookPath "powermetrics".toList,
        Event.run (some 500) "sysctl".toList
          ["-n".toList, "machdep.xcpm.cpu_thermal_level".toList]] ∧
    "      Fan Speed: 1200 RPM (max: 6000)".toList
      ∈ stringsSplit '\n' (envTwoColons.runCmd 0 (some 2000) "system_profiler".toList
        ["SPPowerDataType".toList]).1 ∧
    stringsContains (stringsToLower "      Fan Speed: 1200 RPM (max: 6000)".toList)
      "fan".toList = true ∧
    stringsContains (stringsToLower "      Fan Speed: 1200 RPM (max: 6000)".toList)
      "speed".toList = true ∧
    atoi ((stringsSplit ' ' (stringsTrimSpace
      (afterFirstColon "      Fan Speed: 1200 RPM (max: 6000)".toList))).headD [])
      = (1200, none) := by
  refine ⟨by decide, by decide, by decide, by decide, by decide⟩

/-- C13, amended. In a fault-free environment on darwin `collectThermal`
returns normally, whichever sub-probe determines `CPUTemp`, with a `FanSpeed`
that depends on the power report only: 0 when the report call fails or no line
mentions both `fan` and `speed` (in any letter case) with exactly one colon;
otherwise, for the last such line, the integer parsed from the leading
space-delimited token of the trimmed value after the colon, 0 when that token is
not an integer (`Fan Speed: 1200 RPM` gives 1200). On another platform the
returned `FanSpeed` is 0. -/
theorem collectThermal_fanSpeed (env : Env) (hff : env.FaultFree) (tr : List Event) :
    (env.goos ≠ "darwin".toList → collectThermal env tr = .ok ⟨F64.zero, 0⟩ tr) ∧
    (env.goos = "darwin".toList →
      ∀ (out : Str) (err : Option Str),
        env.runCmd tr.length (some 2000) "system_profiler".toList ["SPPowerDataType".toList]
          = (out, err) →
        ∃ th tr1, collectThermal env tr = .ok th tr1 ∧
          (err ≠ none → th.FanSpeed = 0) ∧
          (err = none →
            (∀ (before after : List Str) (line : Str),
              stringsSplit '\n' out = before ++ line :: after → FanLine line →
              (∀ l ∈ after, ¬ FanLine l) →
              th.FanSpeed = (atoi ((stringsSplit ' '
                (stringsTrimSpace (afterFirstColon line))).headD [])).1) ∧
            ((∀ l ∈ stringsSplit '\n' out, ¬ FanLine l) → th.FanSpeed = 0))) ∧
    (∀ s : Str, (atoi s).2 = some NumError.errSyntax → (atoi s).1 = 0) ∧
    atoi ((stringsSplit ' ' (stringsTrimSpace
      (afterFirstColon "Fan Speed: 1200 RPM".toList))).headD []) = (1200, none) := by
  refine ⟨?_, ?_, atoi_syntax_zero, by decide⟩
  · intro hos
    unfold collectThermal
    rw [if_pos hos]
  · intro hos out err hrun
    obtain ⟨th, tr1, h1, h2⟩ := collectThermal_fan env hff tr hos
    rw [hrun] at h2
    dsimp only at h2
    refine ⟨th, tr1, h1, ?_, ?_⟩
    · intro he
      cases err with
      | none => exact absurd rfl he
      | some e => exact h2
    · intro he
      subst he
      rw [fanScan_eq_foldl] at h2
      simp only [Option.isSome_none, Bool.false_eq_true, if_false] at h2
      constructor
      · intro before after line hs hl ha
        rw [h2, hs]
        exact foldl_last_match FanLine
          (fun l => (atoi ((stringsSplit ' '
            (stringsTrimSpace (afterFirstColon l))).headD [])).1) before after line 0 hl ha
      · intro hno
        rw [h2]
        exact foldl_no_match FanLine
          (fun l => (atoi ((stringsSplit ' '
            (stringsTrimSpace (afterFirstColon l))).headD [])).1) _ 0 hno

/-- C13, amended, at a concrete input: a report whose fan line reads 1200 RPM. -/
theorem collectThermal_fanSpeed_witness :
    envFan.FaultFree ∧
    ∃ th tr1, collectThermal envFan [] = .ok th tr1 ∧ th.FanSpeed = 1200 := by
  refine ⟨fun _ => rfl, ?_⟩
  obtain ⟨th, tr1, h, _, h2⟩ := (collectThermal_fanSpeed envFan (fun _ => rfl) []).2.1 rfl
    "  Fan Speed: 1200 RPM\n".toList none rfl
  refine ⟨th, tr1, h, ?_⟩
  rw [(h2 rfl).1 [] [[]] "  Fan Speed: 1200 RPM".toList (by decide) (by decide) (by decide)]
  decide

/-! ## Faults of the interactions -/

theorem faultsAs_ok {α : Type} (env : Env) (tr : List Event) (a : α) :
    FaultsAs env tr (Res.ok a tr) :=
  ⟨Nat.le_refl _, fun t _ h1 h2 _ => absurd h2 (by simp only [Res.trace]; omega)⟩

theorem faultsAs_interact {α : Type} (env : Env) (ev : Event) (a : α) (tr : List Event) :
    FaultsAs env tr (interact env ev a tr) := by
  unfold interact
  cases hf : env.fault tr.length with
  | none =>
    refine ⟨by simp [Res.trace], ?_⟩
    intro t r h1 h2 h3
    simp only [Res.trace, List.length_append, List.length_singleton] at h2
    have : t = tr.length := by omega
    rw [this, hf] at h3
    cases h3
  | some r0 =>
    refine ⟨by simp [Res.trace], ?_⟩
    intro t r h1 h2 h3
    simp only [Res.trace, List.length_append, List.length_singleton] at h2
    have : t = tr.length := by omega
    rw [this, hf] at h3
    cases h3
    rfl

theorem faultsAs_trans {α β : Type} (env : Env) (tr : List Event) (res1 : Res α)
    (res2 : Res β) (h1 : FaultsAs env tr res1) (hok : res1.fault? = none)
    (h2 : FaultsAs env res1.trace res2) : FaultsAs env tr res2 := by
  refine ⟨Nat.le_trans h1.1 h2.1, ?_⟩
  intro t r ht1 ht2 hf
  by_cases hlt : t < res1.trace.length
  · have := h1.2 t r ht1 hlt hf
    rw [hok] at this
    cases this
  · exact h2.2 t r (by omega) ht2 hf

theorem faultsAs_same {α β : Type} (env : Env) (tr : List Event) (res1 : Res α)
    (res2 : Res β) (h1 : FaultsAs env tr res1) (ht : res2.trace = res1.trace)
    (hf : res2.fault? = res1.fault?) : FaultsAs env tr res2 := by
  unfold FaultsAs
  rw [ht, hf]
  exact h1

theorem faultsAs_getBatteryHealth (env : Env) (tr : List Event) :
    FaultsAs env tr (getBatteryHealth env tr) := by
  unfold getBatteryHealth
  split
  · exact faultsAs_ok env tr _
  · have h := faultsAs_interact env
      (Event.run (some 2000) "system_profiler".toList ["SPPowerDataType".toList])
      (env.runCmd tr.length (some 2000) "system_profiler".toList ["SPPowerDataType".toList]) tr
    unfold runCmd
    cases hi : interact env
      (Event.run (some 2000) "system_profiler".toList ["SPPowerDataType".toList])
      (env.runCmd tr.length (some 2000) "system_profiler".toList ["SPPowerDataType".toList]) tr
      with
    | panic r tr1 =>
      rw [hi] at h
      exact faultsAs_same env tr _ _ h rfl rfl
    | ok oe tr1 =>
      rw [hi] at h
      obtain ⟨out, err⟩ := oe
      dsimp only
      split
      · exact faultsAs_same env tr _ _ h rfl rfl
      · exact faultsAs_same env tr _ _ h rfl rfl

theorem faultsAs_parsePMSetLoop (env : Env) :
    ∀ (lines : List Str) (tl : Str) (out : List BatteryStatus) (tr : List Event),
      FaultsAs env tr (parsePMSetLoop env lines tl out tr) := by
  intro lines
  induction lines with
  | nil =>
    intro tl out tr
    rw [parsePMSetLoop]
    exact faultsAs_ok env tr out
  | cons line rest ih =>
    intro tl out tr
    cases hr : lineReading line with
    | none =>
      rw [parsePMSetLoop_skip_one env line rest tl out tr hr]
      exact ih _ out tr
    | some ps =>
      have hg := faultsAs_getBatteryHealth env tr
      cases hh : getBatteryHealth env tr with
      | panic r tr0 =>
        rw [parsePMSetLoop_panic env line rest tl out tr ps r tr0 hr hh]
        rw [hh] at hg
        exact faultsAs_same env tr _ _ hg rfl rfl
      | ok hc tr0 =>
        obtain ⟨p, st⟩ := ps
        obtain ⟨hl, c⟩ := hc
        rw [parsePMSetLoop_emit_with env line rest tl out tr p st hl c tr0 hr hh]
        rw [hh] at hg
        exact faultsAs_trans env tr _ _ hg rfl (ih _ _ tr0)

theorem faultsAs_sysfsLoop (env : Env) :
    ∀ (matched : List Str) (batts : List BatteryStatus) (tr : List Event),
      FaultsAs env tr (sysfsLoop env matched batts tr).2 := by
  intro matched
  induction matched with
  | nil =>
    intro batts tr
    rw [sysfsLoop]
    exact faultsAs_ok env tr ()
  | cons capFile rest ih =>
    intro batts tr
    rw [sysfsLoop]
    have h1 := faultsAs_interact env (Event.readFile capFile) (env.readFile capFile) tr
    unfold osReadFile
    cases hi : interact env (Event.readFile capFile) (env.readFile capFile) tr with
    | panic r tr1 =>
      rw [hi] at h1
      exact faultsAs_same env tr _ _ h1 rfl rfl
    | ok de tr1 =>
      rw [hi] at h1
      obtain ⟨capData, err⟩ := de
      dsimp only
      split
      · exact faultsAs_trans env tr _ _ h1 rfl (ih _ tr1)
      · have h2 := faultsAs_interact env
          (Event.readFile (filepathJoin (filepathDir capFile) "status".toList))
          (env.readFile (filepathJoin (filepathDir capFile) "status".toList)) tr1
        cases hj : interact env
          (Event.readFile (filepathJoin (filepathDir capFile) "status".toList))
          (env.readFile (filepathJoin (filepathDir capFile) "status".toList)) tr1 with
        | panic r tr2 =>
          rw [hj] at h2
          exact faultsAs_trans env tr _ _ h1 rfl (faultsAs_same env tr1 _ _ h2 rfl rfl)
        | ok se tr2 =>
          rw [hj] at h2
          obtain ⟨statusData, serr⟩ := se
          dsimp only
          exact faultsAs_trans env tr _ _ h1 rfl
            (faultsAs_trans env tr1 _ _ h2 rfl (ih _ tr2))

theorem recovered_of_panic {α : Type} (env : Env) (tr tr1 : List Event) (r : Str)
    (batts : List BatteryStatus) (h : FaultsAs env tr (Res.panic r tr1 : Res α)) :
    Recovered env tr ((batts, some (collectionFailed r)), tr1) := by
  refine ⟨h.1, ?_⟩
  intro t r1 h1 h2 h3
  have := h.2 t r1 h1 h2 h3
  simp only [Res.fault?, Option.some.injEq] at this
  rw [this]

theorem recovered_of_ok {α : Type} (env : Env) (tr tr1 : List Event) (a : α)
    (val : List BatteryStatus × Option Str) (h : FaultsAs env tr (Res.ok a tr1)) :
    Recovered env tr (val, tr1) := by
  refine ⟨h.1, ?_⟩
  intro t r1 h1 h2 h3
  have := h.2 t r1 h1 h2 h3
  cases this

theorem recovered_trans {α : Type} (env : Env) (tr tr1 : List Event) (a : α)
    (res : (List BatteryStatus × Option Str) × List Event)
    (h1 : FaultsAs env tr (Res.ok a tr1)) (h2 : Recovered env tr1 res) :
    Recovered env tr res := by
  refine ⟨Nat.le_trans h1.1 h2.1, ?_⟩
  intro t r ht1 ht2 hf
  by_cases hlt : t < tr1.length
  · have := h1.2 t r ht1 hlt hf
    cases this
  · exact h2.2 t r (by omega) ht2 hf

theorem recovered_collectBatteriesSysfs (env : Env) (tr : List Event) :
    Recovered env tr (collectBatteriesSysfs env tr) := by
  unfold collectBatteriesSysfs filepathGlob
  have hg := faultsAs_interact env
    (Event.glob "/sys/class/power_supply/BAT*/capacity".toList)
    (env.glob "/sys/class/power_supply/BAT*/capacity".toList) tr
  cases hi : interact env (Event.glob "/sys/class/power_supply/BAT*/capacity".toList)
    (env.glob "/sys/class/power_supply/BAT*/capacity".toList) tr with
  | panic r tr1 =>
    rw [hi] at hg
    exact recovered_of_panic env tr tr1 r [] hg
  | ok matched tr1 =>
    rw [hi] at hg
    dsimp only
    have hs := faultsAs_sysfsLoop env matched [] tr1
    rcases hl : sysfsLoop env matched [] tr1 with ⟨batts, res⟩
    rw [hl] at hs
    cases res with
    | panic r tr2 =>
      exact recovered_trans env tr tr1 matched _ hg (recovered_of_panic env tr1 tr2 r batts hs)
    | ok u tr2 =>
      dsimp only
      split
      · exact recovered_trans env tr tr1 matched _ hg (recovered_of_ok env tr1 tr2 u _ hs)
      · exact recovered_trans env tr tr1 matched _ hg (recovered_of_ok env tr1 tr2 u _ hs)

theorem recovered_collectBatteries (env : Env) (tr : List Event) :
    Recovered env tr (collectBatteries env tr) := by
  unfold collectBatteries
  split
  · unfold commandExists
    have hc := faultsAs_interact env (Event.lookPath "pmset".toList)
      (env.commandExists "pmset".toList) tr
    cases hi : interact env (Event.lookPath "pmset".toList)
      (env.commandExists "pmset".toList) tr with
    | panic r tr1 =>
      rw [hi] at hc
      exact recovered_of_panic env tr tr1 r [] hc
    | ok ex tr1 =>
      rw [hi] at hc
      cases ex with
      | false =>
        exact recovered_trans env tr tr1 false _ hc (recovered_collectBatteriesSysfs env tr1)
      | true =>
        dsimp only
        unfold runCmd
        have hr := faultsAs_interact env
          (Event.run none "pmset".toList ["-g".toList, "batt".toList])
          (env.runCmd tr1.length none "pmset".toList ["-g".toList, "batt".toList]) tr1
        cases hj : interact env (Event.run none "pmset".toList ["-g".toList, "batt".toList])
          (env.runCmd tr1.length none "pmset".toList ["-g".toList, "batt".toList]) tr1 with
        | panic r tr2 =>
          rw [hj] at hr
          exact recovered_trans env tr tr1 true _ hc (recovered_of_panic env tr1 tr2 r [] hr)
        | ok oe tr2 =>
          rw [hj] at hr
          obtain ⟨out, err⟩ := oe
          dsimp only
          split
          · exact recovered_trans env tr tr1 true _ hc
              (recovered_trans env tr1 tr2 (out, err) _ hr
                (recovered_collectBatteriesSysfs env tr2))
          · have hp := faultsAs_parsePMSetLoop env (stringsSplit '\n' out) [] [] tr2
            unfold parsePMSet
            cases hk : parsePMSetLoop env (stringsSplit '\n' out) [] [] tr2 with
            | panic r tr3 =>
              rw [hk] at hp
              exact recovered_trans env tr tr1 true _ hc
                (recovered_trans env tr1 tr2 (out, err) _ hr
                  (recovered_of_panic env tr2 tr3 r [] hp))
            | ok batts tr3 =>
              rw [hk] at hp
              dsimp only
              split
              · exact recovered_trans env tr tr1 true _ hc
                  (recovered_trans env tr1 tr2 (out, err) _ hr
                    (recovered_of_ok env tr2 tr3 batts _ hp))
              · exact recovered_trans env tr tr1 true _ hc
                  (recovered_trans env tr1 tr2 (out, err) _ hr
                    (recovered_trans env tr2 tr3 batts _ hp
                      (recovered_collectBatteriesSysfs env tr3)))
  · exact recovered_collectBatteriesSysfs env tr

/-- C19. `collectBatteries` always returns through its normal channel (it is a
total function into `(batts, err)`), and whenever one of the interactions it
makes (command lookup, process run, the runs made by the parser, glob, file
read) raises a runtime fault with description `r`, the returned error is the
message `battery collection failed: ` followed by `r`. -/
theorem collectBatteries_recovers (env : Env) (tr : List Event) :
    tr.length ≤ (collectBatteries env tr).2.length ∧
    ∀ (t : Nat) (r : Str), tr.length ≤ t → t < (collectBatteries env tr).2.length →
      env.fault t = some r →
      (collectBatteries env tr).1.2 = some ("battery collection failed: ".toList ++ r) :=
  recovered_collectBatteries env tr

/-- C19 at a concrete input: the run of `pmset` raises a fault, and the result
is the error made from its description, with no readings. -/
theorem collectBatteries_recovers_witness :
    envPmsetPanics.fault 1 = some "runtime error: nil pointer dereference".toList ∧
    collectBatteries envPmsetPanics []
      = (([], some "battery collection failed: runtime error: nil pointer dereference".toList),
          [Event.lookPath "pmset".toList,
            Event.run none "pmset".toList ["-g".toList, "batt".toList]]) := by
  refine ⟨rfl, ?_⟩
  have h := (collectBatteries_recovers envPmsetPanics []).2 1
    "runtime error: nil pointer dereference".toList (by decide) (by decide) rfl
  have hb : (collectBatteries envPmsetPanics []).1.1 = [] := by decide
  have ht : (collectBatteries envPmsetPanics []).2
      = [Event.lookPath "pmset".toList,
          Event.run none "pmset".toList ["-g".toList, "batt".toList]] := by decide
  rcases hc : collectBatteries envPmsetPanics [] with ⟨⟨batts, err⟩, tr1⟩
  rw [hc] at h hb ht
  dsimp only at h hb ht
  rw [h, hb, ht]
  decide

/-! ## The thermal level as a proxy -/

theorem thermalLevel_level (env : Env) (hff : env.FaultFree) (thermal : ThermalStatus)
    (tr : List Event) (out2 : Str) (L : Int)
    (hrun : env.runCmd tr.length (some 500) "sysctl".toList
      ["-n".toList, "machdep.xcpm.cpu_thermal_level".toList] = (out2, none))
    (hL : atoi (stringsTrimSpace out2) = (L, none)) :
    thermalLevel env thermal tr
      = .ok (if 0 ≤ L then { thermal with CPUTemp := levelTemp L } else thermal)
          (tr ++ [sysctlQuery]) := by
  unfold thermalLevel
  rw [runCmd_at env _ _ _ tr (hff _), hrun]
  dsimp only
  rw [hL]
  simp only [Option.isSome_none, Bool.false_eq_true, if_false]
  split <;> rfl

theorem thermalPowermetrics_falls (env : Env) (hff : env.FaultFree)
    (hpm : ∀ t, powermetricsDetermines env t = false) (thermal : ThermalStatus)
    (tr : List Event) :
    ∃ evs, thermalPowermetrics env thermal tr = thermalLevel env thermal (tr ++ evs) := by
  unfold thermalPowermetrics
  rw [commandExists_at env _ _ (hff _)]
  cases hc : env.commandExists "powermetrics".toList with
  | false => exact ⟨_, rfl⟩
  | true =>
    dsimp only
    split
    · rename_i he
      rw [runCmd_at env _ _ _ _ (hff _)]
      have h := hpm (tr ++ [Event.lookPath "powermetrics".toList]).length
      unfold powermetricsDetermines at h
      rw [hc] at h
      rcases hr : env.runCmd (tr ++ [Event.lookPath "powermetrics".toList]).length (some 2000)
          "powermetrics".toList
          ["-n".toList, "1".toList, "--samplers".toList, "thermal".toList, "-i".toList,
            "100".toList] with ⟨out, err⟩
      rw [hr] at h
      cases err with
      | some e => exact ⟨_, by rw [List.append_assoc]; rfl⟩
      | none =>
        simp only [he, decide_True, Bool.true_and] at h
        cases hd : dieTempScan (stringsSplit '\n' out) with
        | some v => rw [hd] at h; cases h
        | none =>
          refine ⟨[Event.lookPath "powermetrics".toList,
            Event.run (some 2000) "powermetrics".toList
              ["-n".toList, "1".toList, "--samplers".toList, "thermal".toList, "-i".toList,
                "100".toList]], ?_⟩
          simp only [hd, Option.isSome_none, Bool.false_eq_true, if_false, List.append_assoc,
            List.singleton_append]
    · exact ⟨_, rfl⟩

theorem collectThermal_falls (env : Env) (hos : env.goos = "darwin".toList)
    (hff : env.FaultFree)
    (hosx : ∀ t, osxDetermines env t = false)
    (hpm : ∀ t, powermetricsDetermines env t = false) (tr : List Event) :
    ∃ fan evs, collectThermal env tr = thermalLevel env ⟨F64.zero, fan⟩ (tr ++ evs) := by
  unfold collectThermal
  rw [if_neg (by rw [hos]; exact fun h => h rfl), runCmd_at env _ _ _ tr (hff _)]
  rcases env.runCmd tr.length (some 2000) "system_profiler".toList
    ["SPPowerDataType".toList] with ⟨out, err⟩
  dsimp only
  rw [commandExists_at env _ _ (hff _)]
  cases hc : env.commandExists "osx-cpu-temp".toList with
  | false =>
    obtain ⟨evs, h⟩ := thermalPowermetrics_falls env hff hpm
      ⟨F64.zero, if err.isSome then 0 else fanScan (stringsSplit '\n' out) 0⟩
      (tr ++ [Event.run (some 2000) "system_profiler".toList ["SPPowerDataType".toList]]
        ++ [Event.lookPath "osx-cpu-temp".toList])
    exact ⟨_, _, by dsimp only; rw [h, List.append_assoc, List.append_assoc]⟩
  | true =>
    dsimp only
    rw [runCmd_at env _ _ _ _ (hff _)]
    have h := hosx (tr ++ [Event.run (some 2000) "system_profiler".toList
      ["SPPowerDataType".toList]] ++ [Event.lookPath "osx-cpu-temp".toList]).length
    unfold osxDetermines at h
    rw [hc] at h
    rcases hr : env.runCmd (tr ++ [Event.run (some 2000) "system_profiler".toList
      ["SPPowerDataType".toList]] ++ [Event.lookPath "osx-cpu-temp".toList]).length (some 500)
        "osx-cpu-temp".toList [] with ⟨out1, err1⟩
    rw [hr] at h
    obtain ⟨evs, h2⟩ := thermalPowermetrics_falls env hff hpm
      ⟨F64.zero, if err.isSome then 0 else fanScan (stringsSplit '\n' out) 0⟩
      (tr ++ [Event.run (some 2000) "system_profiler".toList ["SPPowerDataType".toList]]
        ++ [Event.lookPath "osx-cpu-temp".toList]
        ++ [Event.run (some 500) "osx-cpu-temp".toList []])
    have hfin : ∃ fan evs1,
        thermalPowermetrics env
          ⟨F64.zero, if err.isSome then 0 else fanScan (stringsSplit '\n' out) 0⟩
          (tr ++ [Event.run (some 2000) "system_profiler".toList ["SPPowerDataType".toList]]
            ++ [Event.lookPath "osx-cpu-temp".toList]
            ++ [Event.run (some 500) "osx-cpu-temp".toList []])
          = thermalLevel env ⟨F64.zero, fan⟩ (tr ++ evs1) :=
      ⟨_, _, by rw [h2, List.append_assoc, List.append_assoc, List.append_assoc]⟩
    cases err1 with
    | some e =>
      simp only [Option.isSome_some, if_true]
      exact hfin
    | none =>
      simp only [Bool.true_and] at h
      simp only [Option.isSome_none, Bool.false_eq_true, if_false]
      rcases hp : parseFloat (osxTempText out1) with ⟨v, perr⟩
      rw [hp] at h
      cases perr with
      | some e =>
        dsimp only
        exact hfin
      | none =>
        have hg : F64.gt v F64.zero = false := h
        dsimp only
        rw [hg]
        simp only [Bool.false_eq_true, if_false]
        exact hfin

set_option maxRecDepth 100000 in
theorem levelTemp_range : ∀ n : Nat, n ≤ 100 →
    F64.le (levelTemp n) (F64.fin false (90 + n) (-1)) = true ∧
    F64.le (F64.fin false (90 + n) (-1)) (levelTemp n) = true ∧
    F64.le (F64.ofInt 40) (levelTemp n) = true ∧
    F64.le (levelTemp n) (F64.ofInt 100) = true := by
  intro n hn
  interval_cases n <;> decide

/-- C20. On macOS, in a fault-free environment in which the dedicated utility
`osx-cpu-temp` never determines `CPUTemp` (it is not installed, or its run
fails, or its output does not parse as a number above 0), the privileged
sampler `powermetrics` never determines it either (it is not installed, or the
effective user is not root, or its run fails, or no line yields a die
temperature), and the thermal-level `sysctl` run always succeeds with an output
that parses as the integer `L`: `collectThermal` returns, its last interaction
is that `sysctl` run, and `CPUTemp` is `45 + float64(L) * 0.5` for `L >= 0`, a
base offset plus a constant increment per level, computed in `float64`, while
for `L < 0` it stays 0. For every level from 0 to 100 that value is exactly
`(90 + L) / 2` and lies between 40 and 100. -/
theorem collectThermal_level_proxy (env : Env) (hos : env.goos = "darwin".toList)
    (hff : env.FaultFree)
    (hosx : ∀ t, osxDetermines env t = false)
    (hpm : ∀ t, powermetricsDetermines env t = false)
    (L : Int)
    (hlevel : ∀ t, ∃ out2, env.runCmd t (some 500) "sysctl".toList
        ["-n".toList, "machdep.xcpm.cpu_thermal_level".toList] = (out2, none) ∧
      atoi (stringsTrimSpace out2) = (L, none))
    (tr : List Event) :
    (∃ (th : ThermalStatus) (evs : List Event),
      collectThermal env tr = .ok th (tr ++ evs ++ [sysctlQuery]) ∧
      (0 ≤ L → th.CPUTemp
        = F64.add (F64.ofInt 45) (F64.mul (F64.ofInt L) (F64.ofRatio false 1 2))) ∧
      (L < 0 → th.CPUTemp = F64.zero)) ∧
    (∀ n : Nat, n ≤ 100 →
      F64.le (levelTemp n) (F64.fin false (90 + n) (-1)) = true ∧
      F64.le (F64.fin false (90 + n) (-1)) (levelTemp n) = true ∧
      F64.le (F64.ofInt 40) (levelTemp n) = true ∧
      F64.le (levelTemp n) (F64.ofInt 100) = true) := by
  refine ⟨?_, levelTemp_range⟩
  obtain ⟨fan, evs, h⟩ := collectThermal_falls env hos hff hosx hpm tr
  obtain ⟨out2, hrun, hL⟩ := hlevel (tr ++ evs).length
  rw [thermalLevel_level env hff _ _ out2 L hrun hL] at h
  refine ⟨_, evs, h, ?_, ?_⟩
  · intro hpos
    rw [if_pos hpos]
    rfl
  · intro hneg
    rw [if_neg (by omega)]

set_option maxRecDepth 100000 in
/-- C20 at a concrete input: `osx-cpu-temp` is installed but its run fails,
`powermetrics` is installed but the user is not root, and the thermal level is
50; `collectThermal` ends with the `sysctl` run and returns 70 degrees. -/
theorem collectThermal_level_proxy_witness :
    envLevelOnly.FaultFree ∧
    (∀ t, osxDetermines envLevelOnly t = false) ∧
    (∀ t, powermetricsDetermines envLevelOnly t = false) ∧
    ∃ (th : ThermalStatus) (evs : List Event),
      collectThermal envLevelOnly [] = .ok th ([] ++ evs ++ [sysctlQuery]) ∧
      th.CPUTemp = F64.ofInt 70 := by
  refine ⟨fun _ => rfl, fun _ => rfl, fun _ => rfl, ?_⟩
  obtain ⟨⟨th, evs, h, hpos, _⟩, _⟩ := collectThermal_level_proxy envLevelOnly rfl
    (fun _ => rfl) (fun _ => rfl) (fun _ => rfl) 50
    (fun _ => ⟨"50\n".toList, rfl, by decide⟩) []
  refine ⟨th, evs, h, ?_⟩
  rw [hpos (by decide)]
  decide

end Mole
